import Mathlib

/-!
Verification of the badminton court allocation engine.

The definitions below are a shallow embedding of the engine found in
the repository: the pure function smartAllocation (utils.ts), which
assigns eligible players to open courts, and the round-grouping update
performed when a match starts (useMatchHistory.ts).  JavaScript arrays
become lists, the string-keyed Map becomes a function from strings to
optional values, numbers become Nat or Int, and the per-invocation
random draw becomes an explicit parameter giving the draw for each
eligible player position.  The stable JavaScript sort is modelled by
insertion sort with the comparator-induced total preorder, which is
the unique stable sorted permutation.
-/

/-- A roster entry: identifier, display name, presence flag, gender flag and
integer skill level, as in the Player interface of types.ts. -/
structure Player where
  id : String
  name : String
  isActive : Bool
  male : Bool
  level : Int
deriving DecidableEq, Repr

instance : Inhabited Player := ⟨{ id := "", name := "", isActive := false, male := true, level := 0 }⟩

/-- Court status: open for assignment, or locked with a match in progress. -/
inductive CourtStatus where
  | allocating
  | playing
deriving DecidableEq, Repr

/-- A court record: identifier, display name, hall flag, status and the four
player-id slots (slots 0 and 1 are team A, slots 2 and 3 are team B). -/
structure Court where
  id : String
  name : String
  typeA : Bool
  status : CourtStatus
  playerIds : List (Option String)
deriving DecidableEq, Repr

instance : Inhabited Court :=
  ⟨{ id := "", name := "", typeA := true, status := CourtStatus.allocating, playerIds := [] }⟩

/-- One recorded match: the court name it was played on, the player names,
the start timestamp, and the optional winner (true for team A). -/
structure MatchRecord where
  courtName : String
  playerNames : List String
  timestamp : Int
  result : Option Bool
deriving DecidableEq, Repr

/-- A round of history: identifier, sequence number, creation timestamp and
the matchList grouped into it. -/
structure RoundRecord where
  id : String
  roundNumber : Nat
  timestamp : Int
  matchList : List MatchRecord
deriving DecidableEq, Repr

/-- Step 1 of the engine: ids seated on playing courts.  The source guards
each slot with a truthiness test, so a null slot and an empty-string id are
both skipped. -/
def playingIdsOf : List Court → List String
  | [] => []
  | c :: cs =>
    (if c.status = CourtStatus.playing then
      c.playerIds.filterMap (fun s =>
        match s with
        | some pid => if pid = "" then none else some pid
        | none => none)
    else []) ++ playingIdsOf cs

/-- Step 2: a player is kept when active and not seated on a playing court. -/
def availableOf (allPlayers : List Player) (courts : List Court) : List Player :=
  allPlayers.filter (fun p => p.isActive && decide (p.id ∉ playingIdsOf courts))

/-- Step 3 inner loop: scanning the matchList of round number rIdx, adding one
to the played count for every match whose name list contains the name, and
recording the round index. -/
def roundScan (nm : String) (rIdx : Nat) (acc : Nat × Int) (r : RoundRecord) : Nat × Int :=
  r.matchList.foldl (fun a m => if nm ∈ m.playerNames then (a.1 + 1, (rIdx : Int)) else a) acc

/-- Step 3 outer loop: played count and last matching round index (or -1)
accumulated over the enumerated history. -/
def statLoop (nm : String) (history : List RoundRecord) : Nat × Int :=
  history.enum.foldl (fun acc ir => roundScan nm ir.1 acc ir.2) (0, -1)

/-- One entry of the priority queue: the player together with the derived
played count, rest score and the random tie-break draw. -/
structure PStat where
  player : Player
  playedCount : Nat
  restRounds : Int
  random : Int
deriving DecidableEq, Repr

/-- The statistics record the engine builds for one available player, with
the random draw passed in explicitly. -/
def pstatOf (history : List RoundRecord) (p : Player) (r : Int) : PStat :=
  { player := p
    playedCount := (statLoop p.name history).1
    restRounds :=
      if (statLoop p.name history).2 = -1 then 999
      else (history.length : Int) - (statLoop p.name history).2
    random := r }

/-- Statistics for every available player, in roster order; position i of
the available list receives random draw rnd i. -/
def statsOf (allPlayers : List Player) (courts : List Court)
    (history : List RoundRecord) (rnd : Nat → Int) : List PStat :=
  (availableOf allPlayers courts).mapIdx (fun i p => pstatOf history p (rnd i))

/-- The priority comparison of step 4: played count ascending, then rest
descending, then random draw descending.  This is the total preorder induced
by the source comparator, read as comparator result at most zero. -/
def prioLe (a b : PStat) : Prop :=
  a.playedCount < b.playedCount ∨
    (a.playedCount = b.playedCount ∧
      (b.restRounds < a.restRounds ∨
        (a.restRounds = b.restRounds ∧ b.random ≤ a.random)))

instance : DecidableRel prioLe := fun a b => by
  unfold prioLe; infer_instance

instance : IsTotal PStat prioLe := by
  constructor
  intro a b
  unfold prioLe
  omega

instance : IsTrans PStat prioLe := by
  constructor
  intro a b c hab hbc
  unfold prioLe at *
  omega

/-- Step 4: the selection queue, the stable sort of the statistics by
priority. -/
def queueOf (allPlayers : List Player) (courts : List Court)
    (history : List RoundRecord) (rnd : Nat → Int) : List PStat :=
  List.insertionSort prioLe (statsOf allPlayers courts history rnd)

/-- Step 5: the open courts, in their original order. -/
def targetsOf (courts : List Court) : List Court :=
  courts.filter (fun c => decide (c.status = CourtStatus.allocating))

/-- Step 6 capacity: how many full courts of four can be formed. -/
def fillCountOf (allPlayers : List Player) (courts : List Court) : Nat :=
  min (targetsOf courts).length ((availableOf allPlayers courts).length / 4)

/-- The selected prefix of the queue: four players per fillable court. -/
def selectedOf (allPlayers : List Player) (courts : List Court)
    (history : List RoundRecord) (rnd : Nat → Int) : List PStat :=
  (queueOf allPlayers courts history rnd).take (fillCountOf allPlayers courts * 4)

/-- The level comparison used for the descending sorts: the comparator
subtracts levels, so a precedes b when the level of b is at most that of a. -/
def levelGe (a b : Player) : Prop := b.level ≤ a.level

instance : DecidableRel levelGe := fun a b => by
  unfold levelGe; infer_instance

instance : IsTotal Player levelGe := ⟨fun a b => Int.le_total b.level a.level⟩

instance : IsTrans Player levelGe :=
  ⟨fun _ _ _ hab hbc => le_trans hbc hab⟩

/-- Step 7 input: the selected players re-sorted by level descending. -/
def selectedPlayersOf (allPlayers : List Player) (courts : List Court)
    (history : List RoundRecord) (rnd : Nat → Int) : List Player :=
  List.insertionSort levelGe ((selectedOf allPlayers courts history rnd).map PStat.player)

/-- The ids of the first fillable open courts, in order. -/
def fillIdsOf (allPlayers : List Player) (courts : List Court) : List String :=
  ((targetsOf courts).take (fillCountOf allPlayers courts)).map Court.id

/-- The assignment map from court id to the players pushed onto that court;
missing keys are none, as for the JavaScript Map. -/
def AMap : Type := String → Option (List Player)

/-- The map holding an empty list for every open court id. -/
def initAMap (ids : List String) : AMap := fun k => if k ∈ ids then some [] else none

/-- Setting one key of the assignment map. -/
def mapSet (m : AMap) (k : String) (v : List Player) : AMap :=
  fun q => if q = k then some v else m q

/-- Reading a key of the assignment map with the empty-list fallback used by
the source. -/
def mapGetD (m : AMap) (k : String) : List Player := (m k).getD []

/-- One move of the snake walk over len courts: advance in the current
direction, bouncing at either end exactly as the mutable loop variables of
the source do. -/
def snakeStep (len : Nat) (courtIdx : Nat) (fwd : Bool) : Nat × Bool :=
  if fwd then
    if courtIdx + 1 ≥ len then (len - 1, false) else (courtIdx + 1, true)
  else
    match courtIdx with
    | 0 => (0, true)
    | i + 1 => (i, false)

/-- Step 6 walk: each player in turn is pushed onto the court whose id sits
at the current snake position, then the position advances. -/
def snakeAssign (ids : List String) : List Player → Nat → Bool → AMap → AMap
  | [], _, _, m => m
  | p :: ps, courtIdx, fwd, m =>
    let cId := ids.getD courtIdx ""
    let m2 := mapSet m cId (mapGetD m cId ++ [p])
    let nxt := snakeStep ids.length courtIdx fwd
    snakeAssign ids ps nxt.1 nxt.2 m2

/-- The assignment map produced by the engine: initialised over every open
court, then filled by the snake walk when at least one court is fillable. -/
def amapOf (allPlayers : List Player) (courts : List Court)
    (history : List RoundRecord) (rnd : Nat → Int) : AMap :=
  if 0 < fillCountOf allPlayers courts then
    snakeAssign (fillIdsOf allPlayers courts)
      (selectedPlayersOf allPlayers courts history rnd) 0 true
      (initAMap ((targetsOf courts).map Court.id))
  else initAMap ((targetsOf courts).map Court.id)

/-- Step 7: the slot layout for a court that received exactly four players:
sort by level descending and seat best, worst, second, third. -/
def balancedIds (ps : List Player) : List (Option String) :=
  let sorted := List.insertionSort levelGe ps
  [some (sorted.getD 0 default).id, some (sorted.getD 3 default).id,
    some (sorted.getD 1 default).id, some (sorted.getD 2 default).id]

/-- The defensive fallback for a partial fill: the assigned players occupy
the first slots in order, the rest stay empty. -/
def fallbackIds (ps : List Player) : List (Option String) :=
  (List.range 4).map (fun i => (ps.get? i).map Player.id)

/-- Step 8: the output record for one court.  Playing courts pass through
unchanged; a court present in the assignment map keeps its identity and
receives the balanced or fallback slots; any other court is reset. -/
def mergeCourt (m : AMap) (c : Court) : Court :=
  if c.status = CourtStatus.playing then c
  else
    match m c.id with
    | some allocated =>
      { c with
        status := CourtStatus.allocating
        playerIds :=
          if allocated.length = 4 then balancedIds allocated else fallbackIds allocated }
    | none => { c with playerIds := [none, none, none, none] }

/-- The allocation engine: the translation of smartAllocation, with the
random draws of the eligible players supplied by rnd. -/
def smartAllocation (allPlayers : List Player) (currentCourts : List Court)
    (history : List RoundRecord) (rnd : Nat → Int) : List Court :=
  currentCourts.map (mergeCourt (amapOf allPlayers currentCourts history rnd))

/-- The grouping window of fifteen minutes, in milliseconds. -/
def groupWindowMs : Int := 15 * 60 * 1000

/-- The history update performed when a court transitions to playing
(recordMatchStart): if a most recent round exists and the new timestamp is
within the grouping window of its creation, the match is appended to it
unless an identical court-name and joined-name match is already present;
otherwise a fresh round is appended with the next sequence number. -/
def recordStartRounds (prev : List RoundRecord) (nm : MatchRecord) (newId : String) :
    List RoundRecord :=
  match prev.getLast? with
  | some lastRound =>
    if nm.timestamp - lastRound.timestamp < groupWindowMs then
      if lastRound.matchList.any (fun m =>
          m.courtName == nm.courtName &&
            String.intercalate "," m.playerNames == String.intercalate "," nm.playerNames) then
        prev
      else
        prev.dropLast ++ [{ lastRound with matchList := lastRound.matchList ++ [nm] }]
    else
      prev ++ [{ id := newId, roundNumber := prev.length + 1,
                 timestamp := nm.timestamp, matchList := [nm] }]
  | none =>
    prev ++ [{ id := newId, roundNumber := prev.length + 1,
               timestamp := nm.timestamp, matchList := [nm] }]

/-- The forward-then-backward traversal of positions zero to k minus one,
as described by the snake law: position i of the walk. -/
def boustroIndex (k i : Nat) : Nat :=
  let r := i % (2 * k)
  if r < k then r else 2 * k - 1 - r

/-- A round contains the player name when one of its matchList lists it. -/
def roundHas (nm : String) (r : RoundRecord) : Prop :=
  ∃ m ∈ r.matchList, nm ∈ m.playerNames

instance (nm : String) (r : RoundRecord) : Decidable (roundHas nm r) := by
  unfold roundHas; infer_instance

/-- The occupied slots of a court: the slots holding an id. -/
def occupiedIds (c : Court) : List String := c.playerIds.filterMap (fun s => s)

/-- All occupied slot ids across a court list, in order. -/
def allSlotIds : List Court → List String
  | [] => []
  | c :: cs => occupiedIds c ++ allSlotIds cs

/-! ### The snake walk: closed form and characterisation -/

/-- The snake walk state after a given number of placements. -/
def stateAt (k : Nat) : Nat → Nat × Bool
  | 0 => (0, true)
  | i + 1 => snakeStep k (stateAt k i).1 (stateAt k i).2

lemma snakeStep_true (len b : Nat) :
    snakeStep len b true = if b + 1 ≥ len then (len - 1, false) else (b + 1, true) := rfl

lemma snakeStep_false_zero (len : Nat) : snakeStep len 0 false = (0, true) := rfl

lemma snakeStep_false_succ (len n : Nat) : snakeStep len (n + 1) false = (n, false) := rfl

lemma boustroIndex_lt {k : Nat} (hk : 1 ≤ k) (i : Nat) : boustroIndex k i < k := by
  have h2 : i % (2 * k) < 2 * k := Nat.mod_lt _ (by omega)
  simp only [boustroIndex]
  split <;> omega

lemma boustroIndex_period (k t : Nat) : boustroIndex k (2 * k + t) = boustroIndex k t := by
  unfold boustroIndex
  rw [Nat.add_mod_left]

lemma boustroIndex_of_lt {k t : Nat} (ht : t < k) : boustroIndex k t = t := by
  have h : t % (2 * k) = t := Nat.mod_eq_of_lt (by omega)
  simp only [boustroIndex, h]
  rw [if_pos ht]

lemma boustroIndex_back {k t : Nat} (ht : t < k) : boustroIndex k (k + t) = k - 1 - t := by
  have h : (k + t) % (2 * k) = k + t := Nat.mod_eq_of_lt (by omega)
  have h2 : ¬ (k + t < k) := by omega
  simp only [boustroIndex, h]
  rw [if_neg h2]
  omega

lemma boustroIndex_fwd {k i : Nat} (h : i % (2 * k) < k) : boustroIndex k i = i % (2 * k) := by
  simp only [boustroIndex]
  rw [if_pos h]

lemma boustroIndex_bwd {k i : Nat} (h : ¬ i % (2 * k) < k) :
    boustroIndex k i = 2 * k - 1 - i % (2 * k) := by
  simp only [boustroIndex]
  rw [if_neg h]

lemma succ_mod_two_mul {k i : Nat} (hk : 1 ≤ k) :
    (i + 1) % (2 * k) = if i % (2 * k) + 1 = 2 * k then 0 else i % (2 * k) + 1 := by
  conv_lhs => rw [Nat.add_mod]
  have h1 : 1 % (2 * k) = 1 := Nat.mod_eq_of_lt (by omega)
  rw [h1]
  have hr : i % (2 * k) < 2 * k := Nat.mod_lt _ (by omega)
  split
  · next h => rw [h, Nat.mod_self]
  · next h => exact Nat.mod_eq_of_lt (by omega)

lemma stateAt_eq {k : Nat} (hk : 1 ≤ k) (i : Nat) :
    stateAt k i = (boustroIndex k i, decide (i % (2 * k) < k)) := by
  induction i with
  | zero =>
    have h0 : 0 % (2 * k) = 0 := Nat.zero_mod _
    have hb : boustroIndex k 0 = 0 := boustroIndex_of_lt (by omega)
    rw [stateAt, hb, h0, decide_eq_true (by omega : (0 : Nat) < k)]
  | succ i ih =>
    have hr : i % (2 * k) < 2 * k := Nat.mod_lt _ (by omega)
    have hstep := succ_mod_two_mul (i := i) hk
    rw [stateAt, ih]
    rcases Nat.lt_or_ge (i % (2 * k)) k with hfwd | hbwd
    · have hb : boustroIndex k i = i % (2 * k) := boustroIndex_fwd hfwd
      rw [hb, decide_eq_true hfwd]
      simp only
      rw [snakeStep_true]
      by_cases hend : i % (2 * k) + 1 ≥ k
      · have h1 : (i + 1) % (2 * k) = k := by
          rw [hstep]
          split <;> omega
        have hb2 : boustroIndex k (i + 1) = k - 1 := by
          rw [boustroIndex_bwd (by omega)]
          omega
        rw [if_pos hend, hb2, h1, decide_eq_false (by omega)]
      · have h1 : (i + 1) % (2 * k) = i % (2 * k) + 1 := by
          rw [hstep]
          split <;> omega
        have hb2 : boustroIndex k (i + 1) = i % (2 * k) + 1 := by
          rw [boustroIndex_fwd (by omega)]
          omega
        rw [if_neg hend, hb2, h1, decide_eq_true (by omega)]
    · have hb : boustroIndex k i = 2 * k - 1 - i % (2 * k) := boustroIndex_bwd (by omega)
      rw [hb, decide_eq_false (by omega)]
      by_cases hlast : i % (2 * k) = 2 * k - 1
      · have hz : 2 * k - 1 - i % (2 * k) = 0 := by omega
        have h1 : (i + 1) % (2 * k) = 0 := by
          rw [hstep]
          split <;> omega
        have hb2 : boustroIndex k (i + 1) = 0 := by
          rw [boustroIndex_fwd (by omega)]
          omega
        rw [hz, snakeStep_false_zero, hb2, h1, decide_eq_true (by omega)]
      · have hsucc : 2 * k - 1 - i % (2 * k) = (2 * k - 2 - i % (2 * k)) + 1 := by omega
        have h1 : (i + 1) % (2 * k) = i % (2 * k) + 1 := by
          rw [hstep]
          split <;> omega
        have hb2 : boustroIndex k (i + 1) = 2 * k - 2 - i % (2 * k) := by
          rw [boustroIndex_bwd (by omega)]
          omega
        rw [hsucc, snakeStep_false_succ, hb2, h1, decide_eq_false (by omega)]

/-- The players that the snake walk started at step i sends to court
position j. -/
def snakePicks (k : Nat) : List Player → Nat → Nat → List Player
  | [], _, _ => []
  | p :: ps, i, j => (if boustroIndex k i = j then [p] else []) ++ snakePicks k ps (i + 1) j

lemma snakeAssign_stateAt_getElem {ids : List String} (hn : ids.Nodup) (hk : 1 ≤ ids.length)
    {j : Nat} (hj : j < ids.length) :
    ∀ (ps : List Player) (i : Nat) (m : AMap) (l : List Player),
      m ids[j] = some l →
      snakeAssign ids ps (stateAt ids.length i).1 (stateAt ids.length i).2 m ids[j] =
        some (l ++ snakePicks ids.length ps i j) := by
  intro ps
  induction ps with
  | nil =>
    intro i m l hml
    simpa [snakeAssign, snakePicks] using hml
  | cons p ps ih =>
    intro i m l hml
    have hb : boustroIndex ids.length i < ids.length := boustroIndex_lt hk i
    have hfst : (stateAt ids.length i).1 = boustroIndex ids.length i := by
      rw [stateAt_eq hk]
    have hstep : snakeStep ids.length (stateAt ids.length i).1 (stateAt ids.length i).2 =
        stateAt ids.length (i + 1) := rfl
    have hgetD : ids.getD (stateAt ids.length i).1 "" = ids[boustroIndex ids.length i] := by
      rw [hfst]
      exact List.getD_eq_getElem ids "" hb
    simp only [snakeAssign, hstep, hgetD]
    by_cases hbj : boustroIndex ids.length i = j
    · subst hbj
      have hm2 : mapSet m ids[boustroIndex ids.length i]
          (mapGetD m ids[boustroIndex ids.length i] ++ [p]) ids[boustroIndex ids.length i] =
          some (l ++ [p]) := by
        simp [mapSet, mapGetD, hml]
      rw [ih (i + 1) _ (l ++ [p]) hm2]
      rw [snakePicks]
      rw [if_pos rfl]
      simp
    · have hne : ids[boustroIndex ids.length i] ≠ ids[j] := by
        intro h
        exact hbj ((hn.getElem_inj_iff).mp h)
      have hm2 : mapSet m (ids[boustroIndex ids.length i])
          (mapGetD m ids[boustroIndex ids.length i] ++ [p]) ids[j] = some l := by
        simp only [mapSet]
        rw [if_neg (fun h => hne h.symm)]
        exact hml
      rw [ih (i + 1) _ l hm2]
      rw [snakePicks]
      rw [if_neg hbj]
      simp

lemma snakeAssign_stateAt_notMem {ids : List String} (hk : 1 ≤ ids.length)
    {x : String} (hx : x ∉ ids) :
    ∀ (ps : List Player) (i : Nat) (m : AMap),
      snakeAssign ids ps (stateAt ids.length i).1 (stateAt ids.length i).2 m x = m x := by
  intro ps
  induction ps with
  | nil =>
    intro i m
    simp [snakeAssign]
  | cons p ps ih =>
    intro i m
    have hb : boustroIndex ids.length i < ids.length := boustroIndex_lt hk i
    have hfst : (stateAt ids.length i).1 = boustroIndex ids.length i := by
      rw [stateAt_eq hk]
    have hstep : snakeStep ids.length (stateAt ids.length i).1 (stateAt ids.length i).2 =
        stateAt ids.length (i + 1) := rfl
    have hgetD : ids.getD (stateAt ids.length i).1 "" = ids[boustroIndex ids.length i] := by
      rw [hfst]
      exact List.getD_eq_getElem ids "" hb
    simp only [snakeAssign, hstep, hgetD]
    rw [ih (i + 1)]
    have hne : ids[boustroIndex ids.length i] ≠ x := by
      intro h
      exact hx (h ▸ List.getElem_mem hb)
    simp only [mapSet]
    rw [if_neg (fun h => hne h.symm)]

lemma snakePicks_getElem_mem (k : Nat) :
    ∀ (ps : List Player) (i t : Nat) (ht : t < ps.length),
      ps[t] ∈ snakePicks k ps i (boustroIndex k (i + t)) := by
  intro ps
  induction ps with
  | nil =>
    intro i t ht
    simp at ht
  | cons p ps ih =>
    intro i t ht
    match t with
    | 0 =>
      rw [snakePicks]
      simp
    | t + 1 =>
      rw [snakePicks]
      have h1 : i + (t + 1) = (i + 1) + t := by omega
      rw [h1]
      have ht' : t < ps.length := by simpa using ht
      have := ih (i + 1) t ht'
      simp only [List.getElem_cons_succ]
      exact List.mem_append_right _ this

lemma snakePicks_length (k : Nat) :
    ∀ (ps : List Player) (i j : Nat),
      (snakePicks k ps i j).length =
        ((List.range ps.length).filter (fun t => decide (boustroIndex k (i + t) = j))).length := by
  intro ps
  induction ps with
  | nil => simp [snakePicks]
  | cons p ps ih =>
    intro i j
    rw [snakePicks, List.length_append, ih (i + 1) j]
    have hcongr : ∀ t ∈ List.range ps.length,
        decide (boustroIndex k (i + 1 + t) = j) = decide (boustroIndex k (i + (t + 1)) = j) := by
      intro t _
      have : i + 1 + t = i + (t + 1) := by omega
      rw [this]
    rw [List.filter_congr hcongr]
    have hrange : List.range (ps.length + 1) = 0 :: (List.range ps.length).map Nat.succ :=
      List.range_succ_eq_map ps.length
    simp only [List.length_cons, hrange, List.filter_cons, List.filter_map]
    have hcomp : ((fun t => decide (boustroIndex k (i + t) = j)) ∘ Nat.succ) =
        fun t => decide (boustroIndex k (i + (t + 1)) = j) := by
      funext t
      simp [Function.comp, Nat.succ_eq_add_one]
    rw [hcomp]
    by_cases hb : boustroIndex k i = j
    · simp [hb, List.length_map]
      omega
    · simp [hb, List.length_map]

lemma length_filter_range_add (a b : Nat) (p : Nat → Bool) :
    ((List.range (a + b)).filter p).length =
      ((List.range a).filter p).length + ((List.range b).filter (fun t => p (a + t))).length := by
  rw [List.range_add, List.filter_append, List.length_append, List.filter_map, List.length_map]
  rfl

lemma filter_eq_range {k j : Nat} (hj : j < k) :
    (List.range k).filter (fun t => decide (t = j)) = [j] := by
  induction k with
  | zero => omega
  | succ k ih =>
    rw [List.range_succ, List.filter_append]
    by_cases h : j = k
    · subst h
      have h1 : (List.range j).filter (fun t => decide (t = j)) = [] := by
        rw [List.filter_eq_nil]
        intro t ht
        rw [List.mem_range] at ht
        simp
        omega
      rw [h1]
      simp
    · have hj2 : j < k := by omega
      rw [ih hj2]
      have h2 : [k].filter (fun t => decide (t = j)) = [] := by
        simp
        omega
      rw [h2, List.append_nil]

lemma snake_window_count {k j : Nat} (hk : 1 ≤ k) (hj : j < k) :
    ((List.range (2 * k)).filter (fun t => decide (boustroIndex k t = j))).length = 2 := by
  have h2k : 2 * k = k + k := by omega
  rw [h2k, length_filter_range_add]
  have e1 : (List.range k).filter (fun t => decide (boustroIndex k t = j)) =
      (List.range k).filter (fun t => decide (t = j)) := by
    apply List.filter_congr
    intro t ht
    rw [List.mem_range] at ht
    rw [boustroIndex_of_lt ht]
  have e2 : (List.range k).filter (fun t => decide (boustroIndex k (k + t) = j)) =
      (List.range k).filter (fun t => decide (t = k - 1 - j)) := by
    apply List.filter_congr
    intro t ht
    rw [List.mem_range] at ht
    rw [boustroIndex_back ht]
    rw [decide_eq_decide]
    omega
  rw [e1, e2, filter_eq_range hj, filter_eq_range (by omega : k - 1 - j < k)]
  rfl

lemma snake_count {k j : Nat} (hk : 1 ≤ k) (hj : j < k) :
    ((List.range (4 * k)).filter (fun t => decide (boustroIndex k t = j))).length = 4 := by
  have h4k : 4 * k = 2 * k + 2 * k := by omega
  rw [h4k, length_filter_range_add]
  have e3 : (List.range (2 * k)).filter (fun t => decide (boustroIndex k (2 * k + t) = j)) =
      (List.range (2 * k)).filter (fun t => decide (boustroIndex k t = j)) := by
    apply List.filter_congr
    intro t _
    rw [boustroIndex_period]
  rw [e3, snake_window_count hk hj]

/-! ### Capacity and assignment map facts -/

lemma statsOf_map_player (A : List Player) (C : List Court) (H : List RoundRecord)
    (R : Nat → Int) : (statsOf A C H R).map PStat.player = availableOf A C := by
  unfold statsOf
  rw [List.mapIdx_eq_enum_map, List.map_map]
  have : (PStat.player ∘ Function.uncurry fun i p => pstatOf H p (R i)) = Prod.snd := by
    funext x
    rfl
  rw [this, List.enum_map_snd]

lemma queueOf_length (A : List Player) (C : List Court) (H : List RoundRecord)
    (R : Nat → Int) : (queueOf A C H R).length = (availableOf A C).length := by
  unfold queueOf
  rw [(List.perm_insertionSort prioLe _).length_eq]
  have := congrArg List.length (statsOf_map_player A C H R)
  rwa [List.length_map] at this

lemma fillCount_mul_four_le (A : List Player) (C : List Court) :
    fillCountOf A C * 4 ≤ (availableOf A C).length := by
  unfold fillCountOf
  have h := Nat.min_le_right (targetsOf C).length ((availableOf A C).length / 4)
  rw [Nat.le_div_iff_mul_le (by omega)] at h
  omega

lemma selectedOf_length (A : List Player) (C : List Court) (H : List RoundRecord)
    (R : Nat → Int) : (selectedOf A C H R).length = fillCountOf A C * 4 := by
  unfold selectedOf
  rw [List.length_take, queueOf_length]
  have := fillCount_mul_four_le A C
  omega

lemma selectedPlayersOf_length (A : List Player) (C : List Court) (H : List RoundRecord)
    (R : Nat → Int) : (selectedPlayersOf A C H R).length = fillCountOf A C * 4 := by
  unfold selectedPlayersOf
  rw [(List.perm_insertionSort levelGe _).length_eq, List.length_map, selectedOf_length]

lemma fillCount_le_targets (A : List Player) (C : List Court) :
    fillCountOf A C ≤ (targetsOf C).length :=
  Nat.min_le_left _ _

lemma fillIdsOf_length (A : List Player) (C : List Court) :
    (fillIdsOf A C).length = fillCountOf A C := by
  unfold fillIdsOf
  rw [List.length_map, List.length_take]
  exact Nat.min_eq_left (fillCount_le_targets A C)

lemma fillIdsOf_getElem (A : List Player) (C : List Court) {j : Nat}
    (hjf : j < (fillIdsOf A C).length) (hjt : j < (targetsOf C).length) :
    (fillIdsOf A C)[j] = ((targetsOf C)[j]).id := by
  unfold fillIdsOf
  rw [List.getElem_map, List.getElem_take]

lemma targets_map_id_nodup {C : List Court} (hn : (C.map Court.id).Nodup) :
    ((targetsOf C).map Court.id).Nodup :=
  hn.sublist ((List.filter_sublist C).map Court.id)

lemma fillIdsOf_nodup {C : List Court} (A : List Player) (hn : (C.map Court.id).Nodup) :
    (fillIdsOf A C).Nodup :=
  (targets_map_id_nodup hn).sublist ((List.take_sublist _ _).map Court.id)

lemma fillIdsOf_subset_targets (A : List Player) (C : List Court) :
    ∀ x ∈ fillIdsOf A C, x ∈ (targetsOf C).map Court.id := fun _ hx =>
  ((List.take_sublist _ _).map Court.id).subset hx

lemma amapOf_fill {A : List Player} {C : List Court} {H : List RoundRecord} {R : Nat → Int}
    (hn : (C.map Court.id).Nodup) {j : Nat} (hj : j < fillCountOf A C)
    (hj' : j < (fillIdsOf A C).length) :
    amapOf A C H R ((fillIdsOf A C)[j]) =
      some (snakePicks (fillCountOf A C) (selectedPlayersOf A C H R) 0 j) := by
  have hlen : (fillIdsOf A C).length = fillCountOf A C := fillIdsOf_length A C
  have hpos : 0 < fillCountOf A C := by omega
  unfold amapOf
  rw [if_pos hpos]
  have hinit : initAMap ((targetsOf C).map Court.id) (fillIdsOf A C)[j] = some [] := by
    unfold initAMap
    rw [if_pos (fillIdsOf_subset_targets A C _ (List.getElem_mem hj'))]
  have h0 : (0, true) = (stateAt (fillIdsOf A C).length 0) := rfl
  have := snakeAssign_stateAt_getElem (fillIdsOf_nodup A hn) (by omega) hj'
    (selectedPlayersOf A C H R) 0 (initAMap ((targetsOf C).map Court.id)) [] hinit
  rw [stateAt] at this
  simpa [hlen] using this

lemma amapOf_unfilled {A : List Player} {C : List Court} {H : List RoundRecord} {R : Nat → Int}
    {x : String} (hx : x ∈ (targetsOf C).map Court.id) (hxf : x ∉ fillIdsOf A C) :
    amapOf A C H R x = some [] := by
  have hinit : initAMap ((targetsOf C).map Court.id) x = some [] := by
    unfold initAMap
    rw [if_pos hx]
  unfold amapOf
  split
  · next hpos =>
    have hlen : (fillIdsOf A C).length = fillCountOf A C := fillIdsOf_length A C
    have := snakeAssign_stateAt_notMem
      (show 1 ≤ (fillIdsOf A C).length by omega) hxf
      (selectedPlayersOf A C H R) 0 (initAMap ((targetsOf C).map Court.id))
    rw [stateAt] at this
    rw [this, hinit]
  · exact hinit

lemma amapOf_notMem {A : List Player} {C : List Court} {H : List RoundRecord} {R : Nat → Int}
    {x : String} (hx : x ∉ (targetsOf C).map Court.id) :
    amapOf A C H R x = none := by
  have hxf : x ∉ fillIdsOf A C := fun h => hx (fillIdsOf_subset_targets A C _ h)
  have hinit : initAMap ((targetsOf C).map Court.id) x = none := by
    unfold initAMap
    rw [if_neg hx]
  unfold amapOf
  split
  · next hpos =>
    have := snakeAssign_stateAt_notMem
      (show 1 ≤ (fillIdsOf A C).length by rw [fillIdsOf_length]; omega) hxf
      (selectedPlayersOf A C H R) 0 (initAMap ((targetsOf C).map Court.id))
    rw [stateAt] at this
    rw [this, hinit]
  · exact hinit

lemma picks_length_four {A : List Player} {C : List Court} {H : List RoundRecord} {R : Nat → Int}
    {j : Nat} (hj : j < fillCountOf A C) :
    (snakePicks (fillCountOf A C) (selectedPlayersOf A C H R) 0 j).length = 4 := by
  rw [snakePicks_length, selectedPlayersOf_length]
  have e : (List.range (fillCountOf A C * 4)).filter
        (fun t => decide (boustroIndex (fillCountOf A C) (0 + t) = j)) =
      (List.range (4 * fillCountOf A C)).filter
        (fun t => decide (boustroIndex (fillCountOf A C) t = j)) := by
    rw [Nat.mul_comm]
    apply List.filter_congr
    intro t _
    rw [Nat.zero_add]
  rw [e, snake_count (by omega) hj]

/-! ### Per-court output shapes -/

lemma targets_status {C : List Court} {c : Court} (hc : c ∈ targetsOf C) :
    c.status = CourtStatus.allocating := by
  have := List.mem_filter.mp hc
  simpa using this.2

lemma targets_mem {C : List Court} {c : Court} (hc : c ∈ targetsOf C) : c ∈ C :=
  (List.mem_filter.mp hc).1

lemma mergeCourt_playing {m : AMap} {c : Court} (h : c.status = CourtStatus.playing) :
    mergeCourt m c = c := by
  unfold mergeCourt
  rw [if_pos h]

lemma mergeCourt_id (m : AMap) (c : Court) : (mergeCourt m c).id = c.id := by
  unfold mergeCourt
  split
  · rfl
  · split <;> rfl

lemma mergeCourt_name (m : AMap) (c : Court) : (mergeCourt m c).name = c.name := by
  unfold mergeCourt
  split
  · rfl
  · split <;> rfl

lemma mergeCourt_typeA (m : AMap) (c : Court) : (mergeCourt m c).typeA = c.typeA := by
  unfold mergeCourt
  split
  · rfl
  · split <;> rfl

lemma mergeCourt_status (m : AMap) (c : Court) : (mergeCourt m c).status = c.status := by
  unfold mergeCourt
  split
  · rfl
  · next h =>
    have : c.status = CourtStatus.allocating := by
      cases hs : c.status
      · rfl
      · exact absurd hs h
    split
    · rw [this]
    · rfl

lemma fallbackIds_nil : fallbackIds [] = [none, none, none, none] := rfl

lemma mergeCourt_fill {A : List Player} {C : List Court} {H : List RoundRecord} {R : Nat → Int}
    (hn : (C.map Court.id).Nodup) {j : Nat} (hj : j < fillCountOf A C)
    (hjt : j < (targetsOf C).length) :
    mergeCourt (amapOf A C H R) ((targetsOf C)[j]) =
      { (targetsOf C)[j] with
        status := CourtStatus.allocating
        playerIds :=
          balancedIds (snakePicks (fillCountOf A C) (selectedPlayersOf A C H R) 0 j) } := by
  have hjf : j < (fillIdsOf A C).length := by
    rw [fillIdsOf_length]
    exact hj
  have hst : ((targetsOf C)[j]).status = CourtStatus.allocating :=
    targets_status (List.getElem_mem hjt)
  have hid : ((targetsOf C)[j]).id = (fillIdsOf A C)[j] :=
    (fillIdsOf_getElem A C hjf hjt).symm
  have hamap : amapOf A C H R ((targetsOf C)[j]).id =
      some (snakePicks (fillCountOf A C) (selectedPlayersOf A C H R) 0 j) := by
    rw [hid]
    exact amapOf_fill hn hj hjf
  unfold mergeCourt
  rw [if_neg (by rw [hst]; exact fun h => CourtStatus.noConfusion h)]
  rw [hamap]
  dsimp only
  rw [if_pos (picks_length_four hj)]

lemma targets_getElem_id_notMem_fill {A : List Player} {C : List Court}
    (hn : (C.map Court.id).Nodup) {j : Nat} (hj1 : fillCountOf A C ≤ j)
    (hj2 : j < (targetsOf C).length) :
    ((targetsOf C)[j]).id ∉ fillIdsOf A C := by
  intro hmem
  obtain ⟨j2, hj2', heq⟩ := List.getElem_of_mem hmem
  have hj2f : j2 < fillCountOf A C := by
    have := fillIdsOf_length A C
    omega
  have hj2t : j2 < (targetsOf C).length := lt_of_lt_of_le hj2f (fillCount_le_targets A C)
  rw [fillIdsOf_getElem A C hj2' hj2t] at heq
  have hmn : ((targetsOf C).map Court.id).Nodup := targets_map_id_nodup hn
  have hj2m : j2 < ((targetsOf C).map Court.id).length := by
    rw [List.length_map]
    exact hj2t
  have hjm : j < ((targetsOf C).map Court.id).length := by
    rw [List.length_map]
    exact hj2
  have e1 : ((targetsOf C).map Court.id)[j2] = ((targetsOf C).map Court.id)[j] := by
    rw [List.getElem_map, List.getElem_map]
    exact heq
  have := hmn.getElem_inj_iff.mp e1
  omega

lemma mergeCourt_reset {A : List Player} {C : List Court} {H : List RoundRecord} {R : Nat → Int}
    (hn : (C.map Court.id).Nodup) {j : Nat} (hj1 : fillCountOf A C ≤ j)
    (hj2 : j < (targetsOf C).length) :
    mergeCourt (amapOf A C H R) ((targetsOf C)[j]) =
      { (targetsOf C)[j] with
        status := CourtStatus.allocating
        playerIds := [none, none, none, none] } := by
  have hst : ((targetsOf C)[j]).status = CourtStatus.allocating :=
    targets_status (List.getElem_mem hj2)
  have hidmem : ((targetsOf C)[j]).id ∈ (targetsOf C).map Court.id := by
    exact List.mem_map_of_mem Court.id (List.getElem_mem hj2)
  have hnot := targets_getElem_id_notMem_fill hn hj1 hj2
  unfold mergeCourt
  rw [if_neg (by rw [hst]; exact fun h => CourtStatus.noConfusion h)]
  rw [amapOf_unfilled hidmem hnot]
  dsimp only
  rw [if_neg (by simp), fallbackIds_nil]

/-! ### Balanced slot facts -/

lemma balancedIds_destruct {ps : List Player} (h4 : ps.length = 4) :
    ∃ b s t w : Player,
      List.insertionSort levelGe ps = [b, s, t, w] ∧
      balancedIds ps = [some b.id, some w.id, some s.id, some t.id] ∧
      s.level ≤ b.level ∧ t.level ≤ s.level ∧ w.level ≤ t.level := by
  have hlen : (List.insertionSort levelGe ps).length = 4 := by
    rw [(List.perm_insertionSort levelGe ps).length_eq, h4]
  have hsorted := List.sorted_insertionSort levelGe ps
  rcases e : List.insertionSort levelGe ps with _ | ⟨b, _ | ⟨s, _ | ⟨t, _ | ⟨w, rest⟩⟩⟩⟩ <;>
    rw [e] at hlen <;> simp at hlen
  subst hlen
  refine ⟨b, s, t, w, rfl, ?_, ?_, ?_, ?_⟩
  · unfold balancedIds
    rw [e]
    rfl
  all_goals
    rw [e] at hsorted
    simp [List.sorted_cons, levelGe] at hsorted
    omega

lemma mem_sorted_four {ps : List Player} {p b s t w : Player}
    (hsort : List.insertionSort levelGe ps = [b, s, t, w]) (hp : p ∈ ps) :
    p = b ∨ p = s ∨ p = t ∨ p = w := by
  have hperm := List.perm_insertionSort levelGe ps
  rw [hsort] at hperm
  have := hperm.mem_iff.mpr hp
  simpa using this

lemma mem_balancedIds_of_mem {ps : List Player} {p : Player} (h4 : ps.length = 4)
    (hp : p ∈ ps) : some p.id ∈ balancedIds ps := by
  obtain ⟨b, s, t, w, hsort, hbal, _, _, _⟩ := balancedIds_destruct h4
  rw [hbal]
  rcases mem_sorted_four hsort hp with h | h | h | h <;> subst h <;> simp

lemma balancedIds_occupied_perm {ps : List Player} (h4 : ps.length = 4) :
    ((balancedIds ps).filterMap (fun s => s)).Perm (ps.map Player.id) := by
  obtain ⟨b, s, t, w, hsort, hbal, _, _, _⟩ := balancedIds_destruct h4
  rw [hbal]
  have hperm := List.perm_insertionSort levelGe ps
  rw [hsort] at hperm
  have h1 : ([b, s, t, w].map Player.id).Perm (ps.map Player.id) := hperm.map Player.id
  have h2 : ([some b.id, some w.id, some s.id, some t.id].filterMap (fun s => s)) =
      [b.id, w.id, s.id, t.id] := rfl
  rw [h2]
  refine List.Perm.trans ?_ h1
  have h3 : ([w.id] ++ [s.id, t.id]).Perm ([s.id, t.id] ++ [w.id]) :=
    List.perm_append_comm
  exact List.Perm.cons b.id h3

lemma smartAllocation_length (A : List Player) (C : List Court) (H : List RoundRecord)
    (R : Nat → Int) : (smartAllocation A C H R).length = C.length := by
  unfold smartAllocation
  rw [List.length_map]

lemma smartAllocation_getD (A : List Player) (C : List Court) (H : List RoundRecord)
    (R : Nat → Int) {i : Nat} (hi : i < C.length) :
    (smartAllocation A C H R).getD i default =
      mergeCourt (amapOf A C H R) (C.getD i default) := by
  have hi2 : i < (smartAllocation A C H R).length := by
    rw [smartAllocation_length]
    exact hi
  rw [List.getD_eq_getElem _ _ hi2, List.getD_eq_getElem _ _ hi]
  unfold smartAllocation
  rw [List.getElem_map]

/-! ### Claim theorems -/

/-- C10.  The engine never changes the status of any court: the output court
at each position carries the same status as the input court at that
position, for every input. -/
theorem allocation_preserves_status (A : List Player) (C : List Court)
    (H : List RoundRecord) (R : Nat → Int) :
    (smartAllocation A C H R).length = C.length ∧
      ∀ i, i < C.length →
        ((smartAllocation A C H R).getD i default).status =
          (C.getD i default).status := by
  refine ⟨smartAllocation_length A C H R, ?_⟩
  intro i hi
  rw [smartAllocation_getD A C H R hi]
  exact mergeCourt_status _ _

/-- Closed witness for C10 at a concrete input. -/
theorem allocation_preserves_status_witness :
    ((smartAllocation
        [{ id := "a", name := "a", isActive := true, male := true, level := 5 }]
        [{ id := "c1", name := "c1", typeA := true, status := CourtStatus.allocating,
           playerIds := [none, none, none, none] }]
        [] (fun _ => 0)).length = 1) ∧
      ((smartAllocation
        [{ id := "a", name := "a", isActive := true, male := true, level := 5 }]
        [{ id := "c1", name := "c1", typeA := true, status := CourtStatus.allocating,
           playerIds := [none, none, none, none] }]
        [] (fun _ => 0)).getD 0 default).status = CourtStatus.allocating := by
  have h := allocation_preserves_status
    [{ id := "a", name := "a", isActive := true, male := true, level := 5 }]
    [{ id := "c1", name := "c1", typeA := true, status := CourtStatus.allocating,
       playerIds := [none, none, none, none] }]
    [] (fun _ => 0)
  exact ⟨h.1, by rw [h.2 0 (by decide)]; rfl⟩

/-- C6.  The output court list has the same length and order as the input:
every playing court passes through identical, and every court keeps its
identifier, name and hall flag, so only status and player slots can ever
differ. -/
theorem frame_preservation (A : List Player) (C : List Court)
    (H : List RoundRecord) (R : Nat → Int) :
    (smartAllocation A C H R).length = C.length ∧
      ∀ i, i < C.length →
        (((C.getD i default).status = CourtStatus.playing →
            (smartAllocation A C H R).getD i default = C.getD i default) ∧
          ((smartAllocation A C H R).getD i default).id = (C.getD i default).id ∧
          ((smartAllocation A C H R).getD i default).name = (C.getD i default).name ∧
          ((smartAllocation A C H R).getD i default).typeA = (C.getD i default).typeA) := by
  refine ⟨smartAllocation_length A C H R, ?_⟩
  intro i hi
  rw [smartAllocation_getD A C H R hi]
  exact ⟨fun h => mergeCourt_playing h, mergeCourt_id _ _, mergeCourt_name _ _,
    mergeCourt_typeA _ _⟩

/-- Closed witness for C6: a playing court passes through unchanged. -/
theorem frame_preservation_witness :
    (smartAllocation
        [{ id := "a", name := "a", isActive := true, male := true, level := 5 }]
        [{ id := "pc", name := "pc", typeA := true, status := CourtStatus.playing,
           playerIds := [some "x", none, none, none] }]
        [] (fun _ => 0)).getD 0 default =
      { id := "pc", name := "pc", typeA := true, status := CourtStatus.playing,
        playerIds := [some "x", none, none, none] } := by
  have h := frame_preservation
    [{ id := "a", name := "a", isActive := true, male := true, level := 5 }]
    [{ id := "pc", name := "pc", typeA := true, status := CourtStatus.playing,
       playerIds := [some "x", none, none, none] }]
    [] (fun _ => 0)
  have h2 := (h.2 0 (by decide)).1 (by decide)
  rw [h2]
  rfl

/-! ### Membership forms of the per-court output shapes -/

lemma targets_id_inj {C : List Court} (hn : (C.map Court.id).Nodup) {a b : Court}
    (ha : a ∈ targetsOf C) (hb : b ∈ targetsOf C) (heq : a.id = b.id) : a = b := by
  obtain ⟨i, hi, hia⟩ := List.getElem_of_mem ha
  obtain ⟨j, hj, hjb⟩ := List.getElem_of_mem hb
  have hmn : ((targetsOf C).map Court.id).Nodup := targets_map_id_nodup hn
  have him : i < ((targetsOf C).map Court.id).length := by
    rw [List.length_map]
    exact hi
  have hjm : j < ((targetsOf C).map Court.id).length := by
    rw [List.length_map]
    exact hj
  have e : ((targetsOf C).map Court.id)[i] = ((targetsOf C).map Court.id)[j] := by
    rw [List.getElem_map, List.getElem_map, hia, hjb]
    exact heq
  have hij : i = j := hmn.getElem_inj_iff.mp e
  subst hij
  rw [← hia, ← hjb]

lemma mergeCourt_of_unfilled {A : List Player} {C : List Court} {H : List RoundRecord}
    {R : Nat → Int} {c : Court} (hc : c ∈ targetsOf C) (hnot : c.id ∉ fillIdsOf A C) :
    mergeCourt (amapOf A C H R) c =
      { c with status := CourtStatus.allocating, playerIds := [none, none, none, none] } := by
  have hst : c.status = CourtStatus.allocating := targets_status hc
  have hidmem : c.id ∈ (targetsOf C).map Court.id := List.mem_map_of_mem Court.id hc
  unfold mergeCourt
  rw [if_neg (by rw [hst]; exact fun h => CourtStatus.noConfusion h)]
  rw [amapOf_unfilled hidmem hnot]
  dsimp only
  rw [if_neg (by simp), fallbackIds_nil]

lemma mergeCourt_of_filled {A : List Player} {C : List Court} {H : List RoundRecord}
    {R : Nat → Int} (hn : (C.map Court.id).Nodup) {c : Court} (hc : c ∈ targetsOf C)
    (hfill : c.id ∈ fillIdsOf A C) :
    ∃ j, ∃ _ : j < fillCountOf A C,
      mergeCourt (amapOf A C H R) c =
        { c with status := CourtStatus.allocating,
                 playerIds :=
                   balancedIds (snakePicks (fillCountOf A C) (selectedPlayersOf A C H R) 0 j) } := by
  obtain ⟨j, hj, hje⟩ := List.getElem_of_mem hfill
  have hjf : j < fillCountOf A C := by
    have := fillIdsOf_length A C
    omega
  have hjt : j < (targetsOf C).length := lt_of_lt_of_le hjf (fillCount_le_targets A C)
  have hce : c = (targetsOf C)[j] := by
    apply targets_id_inj hn hc (List.getElem_mem hjt)
    rw [← hje, fillIdsOf_getElem A C hj hjt]
  refine ⟨j, hjf, ?_⟩
  rw [hce]
  exact mergeCourt_fill hn hjf hjt

lemma occupiedIds_balanced_length (c : Court) (ps : List Player) :
    (occupiedIds { c with status := CourtStatus.allocating, playerIds := balancedIds ps }).length
      = 4 := rfl

lemma occupiedIds_reset (c : Court) :
    occupiedIds
      { c with status := CourtStatus.allocating, playerIds := [none, none, none, none] } =
      [] := rfl

lemma filter_full_eq_take {A : List Player} {C : List Court} {H : List RoundRecord}
    {R : Nat → Int} (hn : (C.map Court.id).Nodup) :
    C.filter (fun c =>
        decide ((mergeCourt (amapOf A C H R) c).status = CourtStatus.allocating ∧
          (occupiedIds (mergeCourt (amapOf A C H R) c)).length = 4)) =
      (targetsOf C).take (fillCountOf A C) := by
  have step1 : C.filter (fun c =>
        decide ((mergeCourt (amapOf A C H R) c).status = CourtStatus.allocating ∧
          (occupiedIds (mergeCourt (amapOf A C H R) c)).length = 4)) =
      (targetsOf C).filter (fun c => decide (c.id ∈ fillIdsOf A C)) := by
    unfold targetsOf
    rw [List.filter_filter]
    apply List.filter_congr
    intro c hc
    by_cases hs : c.status = CourtStatus.playing
    · rw [mergeCourt_playing hs]
      simp [hs]
    · have hst : c.status = CourtStatus.allocating := by
        cases h : c.status
        · rfl
        · exact absurd h hs
      have hct : c ∈ targetsOf C := List.mem_filter.mpr ⟨hc, by simp [hst]⟩
      by_cases hf : c.id ∈ fillIdsOf A C
      · obtain ⟨j, hj, hmerge⟩ := mergeCourt_of_filled hn hct hf
        rw [hmerge]
        simp [hf, hst, occupiedIds_balanced_length]
      · rw [mergeCourt_of_unfilled hct hf]
        simp [hf, hst, occupiedIds_reset]
  rw [step1]
  conv_lhs => rw [← List.take_append_drop (fillCountOf A C) (targetsOf C)]
  rw [List.filter_append]
  have h1 : ((targetsOf C).take (fillCountOf A C)).filter
      (fun c => decide (c.id ∈ fillIdsOf A C)) = (targetsOf C).take (fillCountOf A C) := by
    rw [List.filter_eq_self]
    intro c hcmem
    obtain ⟨j, hj, hje⟩ := List.getElem_of_mem hcmem
    have hjk : j < fillCountOf A C := by
      have := List.length_take (fillCountOf A C) (targetsOf C)
      omega
    rw [List.getElem_take] at hje
    apply decide_eq_true
    have hjf : j < (fillIdsOf A C).length := by
      rw [fillIdsOf_length]
      exact hjk
    have hjt : j < (targetsOf C).length := lt_of_lt_of_le hjk (fillCount_le_targets A C)
    rw [← hje, ← fillIdsOf_getElem A C hjf hjt]
    exact List.getElem_mem hjf
  have h2 : ((targetsOf C).drop (fillCountOf A C)).filter
      (fun c => decide (c.id ∈ fillIdsOf A C)) = [] := by
    rw [List.filter_eq_nil]
    intro c hcmem
    obtain ⟨j, hj, hje⟩ := List.getElem_of_mem hcmem
    rw [List.getElem_drop] at hje
    have hlen : fillCountOf A C + j < (targetsOf C).length := by
      have := List.length_drop (fillCountOf A C) (targetsOf C)
      omega
    have := targets_getElem_id_notMem_fill (A := A) hn
      (by omega : fillCountOf A C ≤ fillCountOf A C + j) hlen
    rw [hje] at this
    simp [this]
  rw [h1, h2, List.append_nil]

/-- C1.  Capacity law: the number of output allocating courts holding
exactly four occupied slots equals the minimum of the open court count and
the floor of the eligible player count divided by four; every other output
allocating court is reset to four empty slots, and in particular with fewer
than four eligible players every open court comes back empty, as an
ordinary result. -/
theorem capacity_law (A : List Player) (C : List Court) (H : List RoundRecord)
    (R : Nat → Int) (hn : (C.map Court.id).Nodup) :
    ((smartAllocation A C H R).filter (fun c =>
        decide (c.status = CourtStatus.allocating ∧ (occupiedIds c).length = 4))).length =
      min (targetsOf C).length ((availableOf A C).length / 4) ∧
    (∀ c ∈ smartAllocation A C H R, c.status = CourtStatus.allocating →
      (occupiedIds c).length ≠ 4 → c.playerIds = [none, none, none, none]) ∧
    ((availableOf A C).length < 4 → ∀ c ∈ smartAllocation A C H R,
      c.status = CourtStatus.allocating → c.playerIds = [none, none, none, none]) := by
  refine ⟨?_, ?_, ?_⟩
  · rw [show smartAllocation A C H R = C.map (mergeCourt (amapOf A C H R)) from rfl,
      List.filter_map, List.length_map]
    rw [show ((fun c => decide (c.status = CourtStatus.allocating ∧
        (occupiedIds c).length = 4)) ∘ mergeCourt (amapOf A C H R)) =
      (fun c => decide ((mergeCourt (amapOf A C H R) c).status = CourtStatus.allocating ∧
        (occupiedIds (mergeCourt (amapOf A C H R) c)).length = 4)) from rfl]
    rw [filter_full_eq_take hn, List.length_take,
      Nat.min_eq_left (fillCount_le_targets A C)]
    rfl
  · intro c hc hstc hocc
    obtain ⟨c0, hc0, hce⟩ := List.mem_map.mp hc
    have hs0 : c0.status = CourtStatus.allocating := by
      have := mergeCourt_status (amapOf A C H R) c0
      rw [hce, hstc] at this
      exact this.symm
    have hct : c0 ∈ targetsOf C := List.mem_filter.mpr ⟨hc0, by simp [hs0]⟩
    by_cases hf : c0.id ∈ fillIdsOf A C
    · obtain ⟨j, hj, hmerge⟩ := mergeCourt_of_filled hn hct hf
      rw [← hce, hmerge] at hocc
      exact absurd (occupiedIds_balanced_length c0 _) hocc
    · rw [← hce, mergeCourt_of_unfilled hct hf]
  · intro hav c hc hstc
    have hzero : fillCountOf A C = 0 := by
      unfold fillCountOf
      have := Nat.div_eq_of_lt hav
      omega
    obtain ⟨c0, hc0, hce⟩ := List.mem_map.mp hc
    have hs0 : c0.status = CourtStatus.allocating := by
      have := mergeCourt_status (amapOf A C H R) c0
      rw [hce, hstc] at this
      exact this.symm
    have hct : c0 ∈ targetsOf C := List.mem_filter.mpr ⟨hc0, by simp [hs0]⟩
    have hf : c0.id ∉ fillIdsOf A C := by
      intro hmem
      have : (fillIdsOf A C).length = 0 := by rw [fillIdsOf_length, hzero]
      rw [List.eq_nil_of_length_eq_zero this] at hmem
      exact List.not_mem_nil _ hmem
    rw [← hce, mergeCourt_of_unfilled hct hf]

/-- Closed witness for C1: three eligible players cannot fill a court, so
the single open court is reset; with zero fillable courts the count is 0. -/
theorem capacity_law_witness :
    (([ { id := "c1", name := "c1", typeA := true, status := CourtStatus.allocating,
          playerIds := [some "a", none, none, none] } ].map Court.id).Nodup ∧
      ((smartAllocation
          [{ id := "a", name := "a", isActive := true, male := true, level := 5 },
           { id := "b", name := "b", isActive := true, male := true, level := 4 },
           { id := "d", name := "d", isActive := true, male := true, level := 3 }]
          [{ id := "c1", name := "c1", typeA := true, status := CourtStatus.allocating,
             playerIds := [some "a", none, none, none] }]
          [] (fun _ => 0)).filter (fun c =>
            decide (c.status = CourtStatus.allocating ∧ (occupiedIds c).length = 4))).length
        = 0) := by
  have h := capacity_law
    [{ id := "a", name := "a", isActive := true, male := true, level := 5 },
     { id := "b", name := "b", isActive := true, male := true, level := 4 },
     { id := "d", name := "d", isActive := true, male := true, level := 3 }]
    [{ id := "c1", name := "c1", typeA := true, status := CourtStatus.allocating,
       playerIds := [some "a", none, none, none] }]
    [] (fun _ => 0) (by decide)
  refine ⟨by decide, ?_⟩
  rw [h.1]
  decide

/-- C2.  Team balance: every output court that received four players seats
them as best, worst, second, third of the level-descending order, so slot
zero carries the maximum level and slot one the minimum; on the concrete
scenario with levels ten, eight, six, four and one open court the slots are
the players of level ten, four, eight and six in that order. -/
theorem team_balance_law :
    (∀ (A : List Player) (C : List Court) (H : List RoundRecord) (R : Nat → Int),
      (C.map Court.id).Nodup →
      ∀ c ∈ smartAllocation A C H R, c.status = CourtStatus.allocating →
        (occupiedIds c).length = 4 →
        ∃ b s t w : Player,
          c.playerIds = [some b.id, some w.id, some s.id, some t.id] ∧
          s.level ≤ b.level ∧ t.level ≤ b.level ∧ w.level ≤ b.level ∧
          w.level ≤ s.level ∧ w.level ≤ t.level ∧ t.level ≤ s.level) ∧
    smartAllocation
        [{ id := "a", name := "a", isActive := true, male := true, level := 10 },
         { id := "b", name := "b", isActive := true, male := true, level := 8 },
         { id := "c", name := "c", isActive := true, male := true, level := 6 },
         { id := "d", name := "d", isActive := true, male := true, level := 4 }]
        [{ id := "c1", name := "c1", typeA := true, status := CourtStatus.allocating,
           playerIds := [none, none, none, none] }]
        [] (fun _ => 0) =
      [{ id := "c1", name := "c1", typeA := true, status := CourtStatus.allocating,
         playerIds := [some "a", some "d", some "b", some "c"] }] := by
  constructor
  · intro A C H R hn c hc hstc hocc
    obtain ⟨c0, hc0, hce⟩ := List.mem_map.mp hc
    have hs0 : c0.status = CourtStatus.allocating := by
      have := mergeCourt_status (amapOf A C H R) c0
      rw [hce, hstc] at this
      exact this.symm
    have hct : c0 ∈ targetsOf C := List.mem_filter.mpr ⟨hc0, by simp [hs0]⟩
    by_cases hf : c0.id ∈ fillIdsOf A C
    · obtain ⟨j, hj, hmerge⟩ := mergeCourt_of_filled hn hct hf
      have h4 : (snakePicks (fillCountOf A C) (selectedPlayersOf A C H R) 0 j).length = 4 :=
        picks_length_four hj
      obtain ⟨b, s, t, w, hsort, hbal, hsb, hts, hwt⟩ := balancedIds_destruct h4
      refine ⟨b, s, t, w, ?_, by omega, by omega, by omega, by omega, by omega, by omega⟩
      rw [← hce, hmerge]
      exact hbal
    · rw [← hce, mergeCourt_of_unfilled hct hf] at hocc
      rw [occupiedIds_reset] at hocc
      simp at hocc
  · decide

/-- Closed witness for C2 at the scenario input. -/
theorem team_balance_law_witness :
    ∃ b s t w : Player,
      ((smartAllocation
          [{ id := "a", name := "a", isActive := true, male := true, level := 10 },
           { id := "b", name := "b", isActive := true, male := true, level := 8 },
           { id := "c", name := "c", isActive := true, male := true, level := 6 },
           { id := "d", name := "d", isActive := true, male := true, level := 4 }]
          [{ id := "c1", name := "c1", typeA := true, status := CourtStatus.allocating,
             playerIds := [none, none, none, none] }]
          [] (fun _ => 0)).getD 0 default).playerIds =
        [some b.id, some w.id, some s.id, some t.id] ∧
      s.level ≤ b.level ∧ t.level ≤ b.level ∧ w.level ≤ b.level ∧
      w.level ≤ s.level ∧ w.level ≤ t.level ∧ t.level ≤ s.level := by
  apply (team_balance_law.1
    [{ id := "a", name := "a", isActive := true, male := true, level := 10 },
     { id := "b", name := "b", isActive := true, male := true, level := 8 },
     { id := "c", name := "c", isActive := true, male := true, level := 6 },
     { id := "d", name := "d", isActive := true, male := true, level := 4 }]
    [{ id := "c1", name := "c1", typeA := true, status := CourtStatus.allocating,
       playerIds := [none, none, none, none] }]
    [] (fun _ => 0) (by decide))
  · decide
  · decide
  · decide

/-- C3.  Snake law: the selected players, re-sorted by level descending, are
dealt onto the first fillable open courts so that the player at sorted
position i lands on the court at open-court index given by the
forward-then-backward traversal; for three courts the first six positions
are zero, one, two, two, one, zero. -/
theorem snake_law :
    (∀ (A : List Player) (C : List Court) (H : List RoundRecord) (R : Nat → Int),
      (C.map Court.id).Nodup →
      ∀ i, i < (selectedPlayersOf A C H R).length →
        ∃ c ∈ smartAllocation A C H R,
          c.id = ((targetsOf C).getD (boustroIndex (fillCountOf A C) i) default).id ∧
          some ((selectedPlayersOf A C H R).getD i default).id ∈ c.playerIds) ∧
    (List.range 6).map (boustroIndex 3) = [0, 1, 2, 2, 1, 0] := by
  constructor
  · intro A C H R hn i hi
    have hlen : (selectedPlayersOf A C H R).length = fillCountOf A C * 4 :=
      selectedPlayersOf_length A C H R
    have hk : 1 ≤ fillCountOf A C := by omega
    have hb : boustroIndex (fillCountOf A C) i < fillCountOf A C := boustroIndex_lt hk i
    have hbt : boustroIndex (fillCountOf A C) i < (targetsOf C).length :=
      lt_of_lt_of_le hb (fillCount_le_targets A C)
    refine ⟨mergeCourt (amapOf A C H R)
      ((targetsOf C)[boustroIndex (fillCountOf A C) i]), ?_, ?_, ?_⟩
    · exact List.mem_map_of_mem _ (targets_mem (List.getElem_mem hbt))
    · rw [mergeCourt_id, List.getD_eq_getElem (targetsOf C) default hbt]
    · rw [mergeCourt_fill hn hb hbt]
      dsimp only
      have hi' : i < (selectedPlayersOf A C H R).length := hi
      have hp := snakePicks_getElem_mem (fillCountOf A C) (selectedPlayersOf A C H R) 0 i hi'
      rw [Nat.zero_add] at hp
      rw [List.getD_eq_getElem (selectedPlayersOf A C H R) default hi']
      exact mem_balancedIds_of_mem (picks_length_four hb) hp
  · decide

/-- Closed witness for C3: with eight players and two open courts the top
player lands on the first court. -/
theorem snake_law_witness :
    ∃ c ∈ smartAllocation
        [{ id := "a", name := "a", isActive := true, male := true, level := 8 },
         { id := "b", name := "b", isActive := true, male := true, level := 7 },
         { id := "c", name := "c", isActive := true, male := true, level := 6 },
         { id := "d", name := "d", isActive := true, male := true, level := 5 },
         { id := "e", name := "e", isActive := true, male := true, level := 4 },
         { id := "f", name := "f", isActive := true, male := true, level := 3 },
         { id := "g", name := "g", isActive := true, male := true, level := 2 },
         { id := "h", name := "h", isActive := true, male := true, level := 1 }]
        [{ id := "c1", name := "c1", typeA := true, status := CourtStatus.allocating,
           playerIds := [none, none, none, none] },
         { id := "c2", name := "c2", typeA := true, status := CourtStatus.allocating,
           playerIds := [none, none, none, none] }]
        [] (fun _ => 0),
      c.id = ((targetsOf
          [{ id := "c1", name := "c1", typeA := true, status := CourtStatus.allocating,
             playerIds := [none, none, none, none] },
           { id := "c2", name := "c2", typeA := true, status := CourtStatus.allocating,
             playerIds := [none, none, none, none] }]).getD
            (boustroIndex (fillCountOf
              [{ id := "a", name := "a", isActive := true, male := true, level := 8 },
               { id := "b", name := "b", isActive := true, male := true, level := 7 },
               { id := "c", name := "c", isActive := true, male := true, level := 6 },
               { id := "d", name := "d", isActive := true, male := true, level := 5 },
               { id := "e", name := "e", isActive := true, male := true, level := 4 },
               { id := "f", name := "f", isActive := true, male := true, level := 3 },
               { id := "g", name := "g", isActive := true, male := true, level := 2 },
               { id := "h", name := "h", isActive := true, male := true, level := 1 }]
              [{ id := "c1", name := "c1", typeA := true, status := CourtStatus.allocating,
                 playerIds := [none, none, none, none] },
               { id := "c2", name := "c2", typeA := true, status := CourtStatus.allocating,
                 playerIds := [none, none, none, none] }]) 0) default).id ∧
        some ((selectedPlayersOf
            [{ id := "a", name := "a", isActive := true, male := true, level := 8 },
             { id := "b", name := "b", isActive := true, male := true, level := 7 },
             { id := "c", name := "c", isActive := true, male := true, level := 6 },
             { id := "d", name := "d", isActive := true, male := true, level := 5 },
             { id := "e", name := "e", isActive := true, male := true, level := 4 },
             { id := "f", name := "f", isActive := true, male := true, level := 3 },
             { id := "g", name := "g", isActive := true, male := true, level := 2 },
             { id := "h", name := "h", isActive := true, male := true, level := 1 }]
            [{ id := "c1", name := "c1", typeA := true, status := CourtStatus.allocating,
               playerIds := [none, none, none, none] },
             { id := "c2", name := "c2", typeA := true, status := CourtStatus.allocating,
               playerIds := [none, none, none, none] }]
            [] (fun _ => 0)).getD 0 default).id ∈ c.playerIds := by
  apply snake_law.1
  · decide
  · decide

/-! ### Selection membership facts -/

lemma snakeAssign_values_sub {ids : List String} {S : List Player} :
    ∀ (ps : List Player) (idx : Nat) (fwd : Bool) (m : AMap),
      (∀ y l, m y = some l → ∀ q ∈ l, q ∈ S) → (∀ p ∈ ps, p ∈ S) →
      ∀ y l, snakeAssign ids ps idx fwd m y = some l → ∀ q ∈ l, q ∈ S := by
  intro ps
  induction ps with
  | nil =>
    intro idx fwd m hm _ y l hy
    exact hm y l hy
  | cons p ps ih =>
    intro idx fwd m hm hps y l hy
    rw [snakeAssign] at hy
    refine ih _ _ _ ?_ (fun q hq => hps q (List.mem_cons_of_mem p hq)) y l hy
    intro y2 l2 hy2 q hq
    simp only [mapSet] at hy2
    by_cases he : y2 = ids.getD idx ""
    · rw [if_pos he] at hy2
      cases hy2
      rcases List.mem_append.mp hq with hq1 | hq2
      · unfold mapGetD at hq1
        cases hmy : m (ids.getD idx "") with
        | none => rw [hmy] at hq1; simp at hq1
        | some l0 =>
          rw [hmy] at hq1
          exact hm _ l0 hmy q hq1
      · have : q = p := by simpa using hq2
        exact this ▸ hps p (List.mem_cons_self p ps)
    · rw [if_neg he] at hy2
      exact hm y2 l2 hy2 q hq

lemma amapOf_values_sub {A : List Player} {C : List Court} {H : List RoundRecord}
    {R : Nat → Int} {y : String} {l : List Player}
    (hy : amapOf A C H R y = some l) :
    ∀ q ∈ l, q ∈ selectedPlayersOf A C H R := by
  have hinit : ∀ y2 l2, initAMap ((targetsOf C).map Court.id) y2 = some l2 → ∀ q ∈ l2,
      q ∈ selectedPlayersOf A C H R := by
    intro y2 l2 h q hq
    unfold initAMap at h
    split at h
    · cases h
      simp at hq
    · cases h
  unfold amapOf at hy
  split at hy
  · exact snakeAssign_values_sub _ _ _ _ hinit (fun p hp => hp) y l hy
  · exact hinit y l hy

lemma fallbackIds_mem {ps : List Player} {pid : String}
    (h : some pid ∈ fallbackIds ps) : ∃ q ∈ ps, q.id = pid := by
  unfold fallbackIds at h
  obtain ⟨i, _, hi⟩ := List.mem_map.mp h
  obtain ⟨q, hq1, hq2⟩ := Option.map_eq_some'.mp hi
  exact ⟨q, List.get?_mem hq1, hq2⟩

lemma balancedIds_mem {ps : List Player} {pid : String} (h4 : ps.length = 4)
    (h : some pid ∈ balancedIds ps) : ∃ q ∈ ps, q.id = pid := by
  obtain ⟨b, s, t, w, hsort, hbal, _⟩ := balancedIds_destruct h4
  rw [hbal] at h
  have hperm := List.perm_insertionSort levelGe ps
  rw [hsort] at hperm
  have hmem : ∀ x : Player, x ∈ ([b, s, t, w] : List Player) → x ∈ ps := fun x hx =>
    hperm.mem_iff.mp hx
  simp only [List.mem_cons, List.not_mem_nil, or_false] at h
  rcases h with h | h | h | h
  · exact ⟨b, hmem b (by simp), (Option.some_inj.mp h).symm⟩
  · exact ⟨w, hmem w (by simp), (Option.some_inj.mp h).symm⟩
  · exact ⟨s, hmem s (by simp), (Option.some_inj.mp h).symm⟩
  · exact ⟨t, hmem t (by simp), (Option.some_inj.mp h).symm⟩

lemma slot_mem_selected {A : List Player} {C : List Court} {H : List RoundRecord}
    {R : Nat → Int} {c : Court} (hc : c ∈ smartAllocation A C H R)
    (hst : c.status = CourtStatus.allocating) {pid : String}
    (hmem : some pid ∈ c.playerIds) :
    ∃ p ∈ selectedPlayersOf A C H R, p.id = pid := by
  obtain ⟨c0, hc0, hce⟩ := List.mem_map.mp hc
  by_cases hs : c0.status = CourtStatus.playing
  · rw [← hce, mergeCourt_playing hs] at hst
    rw [hs] at hst
    exact absurd hst (fun h => CourtStatus.noConfusion h)
  · rw [← hce] at hmem
    unfold mergeCourt at hmem
    rw [if_neg hs] at hmem
    cases ha : amapOf A C H R c0.id with
    | none =>
      rw [ha] at hmem
      dsimp only at hmem
      simp at hmem
    | some allocated =>
      rw [ha] at hmem
      dsimp only at hmem
      have hsub := amapOf_values_sub ha
      by_cases h4 : allocated.length = 4
      · rw [if_pos h4] at hmem
        obtain ⟨q, hq, hqe⟩ := balancedIds_mem h4 hmem
        exact ⟨q, hsub q hq, hqe⟩
      · rw [if_neg h4] at hmem
        obtain ⟨q, hq, hqe⟩ := fallbackIds_mem hmem
        exact ⟨q, hsub q hq, hqe⟩

lemma selectedOf_sub_stats {A : List Player} {C : List Court} {H : List RoundRecord}
    {R : Nat → Int} {s : PStat} (hs : s ∈ selectedOf A C H R) :
    s ∈ statsOf A C H R := by
  have h1 : s ∈ queueOf A C H R := (List.take_sublist _ _).subset hs
  exact (List.perm_insertionSort prioLe _).mem_iff.mp h1

lemma stats_mem_available {A : List Player} {C : List Court} {H : List RoundRecord}
    {R : Nat → Int} {s : PStat} (hs : s ∈ statsOf A C H R) :
    s.player ∈ availableOf A C := by
  rw [← statsOf_map_player A C H R]
  exact List.mem_map_of_mem PStat.player hs

lemma stats_mem_eq {A : List Player} {C : List Court} {H : List RoundRecord}
    {R : Nat → Int} {s : PStat} (hs : s ∈ statsOf A C H R) :
    ∃ r : Int, s = pstatOf H s.player r := by
  unfold statsOf at hs
  rw [List.mapIdx_eq_enum_map] at hs
  obtain ⟨x, _, hx⟩ := List.mem_map.mp hs
  refine ⟨R x.1, ?_⟩
  rw [← hx]
  rfl

lemma selectedPlayers_mem_selected {A : List Player} {C : List Court} {H : List RoundRecord}
    {R : Nat → Int} {p : Player} (hp : p ∈ selectedPlayersOf A C H R) :
    ∃ s ∈ selectedOf A C H R, s.player = p := by
  unfold selectedPlayersOf at hp
  have h1 : p ∈ (selectedOf A C H R).map PStat.player :=
    (List.perm_insertionSort levelGe _).mem_iff.mp hp
  exact List.mem_map.mp h1

lemma selectedPlayers_sub_available {A : List Player} {C : List Court} {H : List RoundRecord}
    {R : Nat → Int} {p : Player} (hp : p ∈ selectedPlayersOf A C H R) :
    p ∈ availableOf A C := by
  obtain ⟨s, hs, hsp⟩ := selectedPlayers_mem_selected hp
  rw [← hsp]
  exact stats_mem_available (selectedOf_sub_stats hs)

lemma available_spec {A : List Player} {C : List Court} {p : Player}
    (hp : p ∈ availableOf A C) :
    p ∈ A ∧ p.isActive = true ∧ p.id ∉ playingIdsOf C := by
  have := List.mem_filter.mp hp
  refine ⟨this.1, ?_, ?_⟩
  · have := this.2
    simp only [Bool.and_eq_true, decide_eq_true_eq] at this
    exact this.1
  · have := this.2
    simp only [Bool.and_eq_true, decide_eq_true_eq] at this
    exact this.2

lemma players_id_inj {A : List Player} (hn : (A.map Player.id).Nodup) {a b : Player}
    (ha : a ∈ A) (hb : b ∈ A) (heq : a.id = b.id) : a = b := by
  obtain ⟨i, hi, hia⟩ := List.getElem_of_mem ha
  obtain ⟨j, hj, hjb⟩ := List.getElem_of_mem hb
  have him : i < (A.map Player.id).length := by
    rw [List.length_map]
    exact hi
  have hjm : j < (A.map Player.id).length := by
    rw [List.length_map]
    exact hj
  have e : (A.map Player.id)[i] = (A.map Player.id)[j] := by
    rw [List.getElem_map, List.getElem_map, hia, hjb]
    exact heq
  have hij : i = j := hn.getElem_inj_iff.mp e
  subst hij
  rw [← hia, ← hjb]

lemma playingIdsOf_of_seated {C : List Court} {c : Court} {pid : String} (hne : pid ≠ "")
    (hc : c ∈ C) (hst : c.status = CourtStatus.playing) (hmem : some pid ∈ c.playerIds) :
    pid ∈ playingIdsOf C := by
  induction C with
  | nil => exact absurd hc (List.not_mem_nil c)
  | cons c0 cs ih =>
    rw [playingIdsOf]
    rcases List.mem_cons.mp hc with he | hm
    · subst he
      apply List.mem_append_left
      rw [if_pos hst]
      apply List.mem_filterMap.mpr
      refine ⟨some pid, hmem, ?_⟩
      dsimp only
      rw [if_neg hne]
    · exact List.mem_append_right _ (ih hm)

/-! ### Concrete fixtures used by counterexamples and witnesses -/

/-- A roster member used in concrete scenarios. -/
def mkPlayer (i nm : String) (act : Bool) (lv : Int) : Player :=
  { id := i, name := nm, isActive := act, male := true, level := lv }

/-- An open court used in concrete scenarios. -/
def mkOpenCourt (i : String) : Court :=
  { id := i, name := i, typeA := true, status := CourtStatus.allocating,
    playerIds := [none, none, none, none] }

/-- A playing court with the given seated slots. -/
def mkPlayingCourt (i : String) (slots : List (Option String)) : Court :=
  { id := i, name := i, typeA := true, status := CourtStatus.playing, playerIds := slots }

/-- The roster with an empty-string id used against C7 and C8. -/
def emptyIdRoster : List Player :=
  [mkPlayer "" "z" true 5, mkPlayer "b" "b" true 4,
   mkPlayer "c" "c" true 3, mkPlayer "d" "d" true 2]

/-- The court pair with the empty-string id seated on the playing court. -/
def emptyIdCourts : List Court :=
  [mkPlayingCourt "p1" [some "", none, none, none], mkOpenCourt "c2"]

/-- Counterexample to C8 as stated.  A player whose id is the empty string
is seated on a playing court, yet the truthiness guard of the source skips
empty-string ids when collecting the locked set, so the engine seats that
player on an open court as well. -/
theorem eligibility_exclusion_counterexample :
    ((emptyIdRoster.map Player.id).Nodup) ∧
    (mkPlayingCourt "p1" [some "", none, none, none]).status = CourtStatus.playing ∧
    (mkPlayingCourt "p1" [some "", none, none, none]) ∈ emptyIdCourts ∧
    some "" ∈ (mkPlayingCourt "p1" [some "", none, none, none]).playerIds ∧
    (mkPlayer "" "z" true 5) ∈ emptyIdRoster ∧
    ∃ c ∈ smartAllocation emptyIdRoster emptyIdCourts [] (fun _ => 0),
      c.status = CourtStatus.allocating ∧ some "" ∈ c.playerIds := by
  decide

/-- C8 as amended.  No inactive player ever appears in an output allocating
court, and no player id seated with a non-empty id on an input playing
court ever appears in an output allocating court; the non-empty condition
is forced by the truthiness guard of the lock collection. -/
theorem eligibility_exclusion (A : List Player) (C : List Court) (H : List RoundRecord)
    (R : Nat → Int) (hnp : (A.map Player.id).Nodup) :
    (∀ q ∈ A, q.isActive = false → ∀ c ∈ smartAllocation A C H R,
      c.status = CourtStatus.allocating → some q.id ∉ c.playerIds) ∧
    (∀ pid : String, pid ≠ "" →
      (∃ c0 ∈ C, c0.status = CourtStatus.playing ∧ some pid ∈ c0.playerIds) →
      ∀ c ∈ smartAllocation A C H R, c.status = CourtStatus.allocating →
        some pid ∉ c.playerIds) := by
  constructor
  · intro q hq hinact c hc hst hmem
    obtain ⟨p, hp, hpe⟩ := slot_mem_selected hc hst hmem
    have hav := available_spec (selectedPlayers_sub_available hp)
    have : p = q := players_id_inj hnp hav.1 hq hpe
    rw [this] at hav
    rw [hinact] at hav
    exact Bool.noConfusion hav.2.1
  · intro pid hne hseat c hc hst hmem
    obtain ⟨c0, hc0, hst0, hmem0⟩ := hseat
    have hlock : pid ∈ playingIdsOf C := playingIdsOf_of_seated hne hc0 hst0 hmem0
    obtain ⟨p, hp, hpe⟩ := slot_mem_selected hc hst hmem
    have hav := available_spec (selectedPlayers_sub_available hp)
    rw [hpe] at hav
    exact hav.2.2 hlock

/-- Closed witness for the amended C8: an inactive player and a seated
player with a real id never reach the open court. -/
theorem eligibility_exclusion_witness :
    (∀ c ∈ smartAllocation [mkPlayer "a" "a" false 5, mkPlayer "b" "b" true 4]
        [mkPlayingCourt "p1" [some "x", none, none, none], mkOpenCourt "c2"]
        [] (fun _ => 0),
      c.status = CourtStatus.allocating → some (mkPlayer "a" "a" false 5).id ∉ c.playerIds) ∧
    (∀ c ∈ smartAllocation [mkPlayer "a" "a" false 5, mkPlayer "b" "b" true 4]
        [mkPlayingCourt "p1" [some "x", none, none, none], mkOpenCourt "c2"]
        [] (fun _ => 0),
      c.status = CourtStatus.allocating → some "x" ∉ c.playerIds) := by
  have h := eligibility_exclusion [mkPlayer "a" "a" false 5, mkPlayer "b" "b" true 4]
    [mkPlayingCourt "p1" [some "x", none, none, none], mkOpenCourt "c2"]
    [] (fun _ => 0) (by decide)
  constructor
  · exact h.1 (mkPlayer "a" "a" false 5) (by decide) (by decide)
  · exact h.2 "x" (by decide)
      ⟨mkPlayingCourt "p1" [some "x", none, none, none], by decide, by decide, by decide⟩

/-! ### Flattened slot lists and the snake partition -/

lemma allSlotIds_append (l1 l2 : List Court) :
    allSlotIds (l1 ++ l2) = allSlotIds l1 ++ allSlotIds l2 := by
  induction l1 with
  | nil => rfl
  | cons c cs ih =>
    rw [List.cons_append, allSlotIds, allSlotIds, ih, List.append_assoc]

lemma allSlotIds_eq_join (l : List Court) :
    allSlotIds l = (l.map occupiedIds).flatten := by
  induction l with
  | nil => rfl
  | cons c cs ih =>
    rw [allSlotIds, ih, List.map_cons, List.flatten_cons]

lemma join_perm_of_forall₂ {α : Type} {L1 L2 : List (List α)}
    (h : List.Forall₂ List.Perm L1 L2) : L1.flatten.Perm L2.flatten := by
  induction h with
  | nil => exact List.Perm.refl _
  | cons h1 _ ih =>
    rw [List.flatten_cons, List.flatten_cons]
    exact h1.append ih

lemma join_map_extract {α : Type} {k j0 : Nat} (hj : j0 < k) (p : α) (g : Nat → List α)
    (f : Nat → List α) (hf : ∀ j, j < k → f j = (if j0 = j then [p] else []) ++ g j) :
    (((List.range k).map f).flatten).Perm (p :: ((List.range k).map g).flatten) := by
  induction k with
  | zero => omega
  | succ k ih =>
    rw [List.range_succ, List.map_append, List.flatten_append,
      List.map_append, List.flatten_append]
    simp only [List.map_cons, List.map_nil, List.flatten_cons, List.flatten_nil, List.append_nil]
    by_cases hj0 : j0 = k
    · subst hj0
      have h1 : (List.range j0).map f = (List.range j0).map g := by
        apply List.map_congr_left
        intro j hjm
        rw [List.mem_range] at hjm
        rw [hf j (by omega), if_neg (by omega)]
        rfl
      rw [h1, hf j0 (by omega), if_pos rfl]
      rw [List.singleton_append]
      exact List.perm_middle
    · have hj' : j0 < k := by omega
      have h2 : f k = g k := by
        rw [hf k (by omega), if_neg hj0]
        rfl
      rw [h2]
      have := (ih hj' (fun j hjk => hf j (by omega))).append_right (g k)
      rw [List.cons_append] at this
      exact this

lemma snakePicks_partition {k : Nat} (hk : 1 ≤ k) :
    ∀ (ps : List Player) (i : Nat),
      ((List.range k).map (fun j => snakePicks k ps i j)).flatten.Perm ps := by
  intro ps
  induction ps with
  | nil =>
    intro i
    have h : (List.range k).map (fun j => snakePicks k ([] : List Player) i j) =
        (List.range k).map (fun _ => ([] : List Player)) := by
      apply List.map_congr_left
      intro j _
      rfl
    rw [h]
    have h2 : ((List.range k).map (fun _ => ([] : List Player))).flatten = [] := by
      rw [List.flatten_eq_nil_iff]
      intro l hl
      obtain ⟨_, _, he⟩ := List.mem_map.mp hl
      exact he.symm
    rw [h2]
  | cons p ps ih =>
    intro i
    have hb : boustroIndex k i < k := boustroIndex_lt hk i
    have hstep := join_map_extract hb p (fun j => snakePicks k ps (i + 1) j)
      (fun j => snakePicks k (p :: ps) i j) (fun j _ => rfl)
    exact hstep.trans ((ih (i + 1)).cons p)

lemma out_filter_alloc (A : List Player) (C : List Court) (H : List RoundRecord)
    (R : Nat → Int) :
    (smartAllocation A C H R).filter (fun c => decide (c.status = CourtStatus.allocating)) =
      (targetsOf C).map (mergeCourt (amapOf A C H R)) := by
  rw [show smartAllocation A C H R = C.map (mergeCourt (amapOf A C H R)) from rfl,
    List.filter_map]
  have h : ((fun c => decide (c.status = CourtStatus.allocating)) ∘
      mergeCourt (amapOf A C H R)) = fun c => decide (c.status = CourtStatus.allocating) := by
    funext c
    simp [Function.comp, mergeCourt_status]
  rw [h]
  rfl

lemma allocSlots_perm {A : List Player} {C : List Court} {H : List RoundRecord}
    {R : Nat → Int} (hn : (C.map Court.id).Nodup) :
    (allSlotIds ((smartAllocation A C H R).filter
        (fun c => decide (c.status = CourtStatus.allocating)))).Perm
      ((selectedPlayersOf A C H R).map Player.id) := by
  rw [out_filter_alloc, allSlotIds_eq_join, List.map_map]
  conv_lhs => rw [← List.take_append_drop (fillCountOf A C) (targetsOf C)]
  rw [List.map_append, List.flatten_append]
  have hdrop : (((targetsOf C).drop (fillCountOf A C)).map
      (occupiedIds ∘ mergeCourt (amapOf A C H R))).flatten = [] := by
    rw [List.flatten_eq_nil_iff]
    intro l hl
    obtain ⟨c, hc, hce⟩ := List.mem_map.mp hl
    obtain ⟨j, hj, hje⟩ := List.getElem_of_mem hc
    rw [List.getElem_drop] at hje
    have hlen : fillCountOf A C + j < (targetsOf C).length := by
      have := List.length_drop (fillCountOf A C) (targetsOf C)
      omega
    rw [← hce, ← hje]
    have := mergeCourt_reset (A := A) (H := H) (R := R) hn
      (by omega : fillCountOf A C ≤ fillCountOf A C + j) hlen
    simp only [Function.comp]
    rw [this, occupiedIds_reset]
  rw [hdrop, List.append_nil]
  by_cases hk : 1 ≤ fillCountOf A C
  · have hforall : List.Forall₂ List.Perm
        (((targetsOf C).take (fillCountOf A C)).map
          (occupiedIds ∘ mergeCourt (amapOf A C H R)))
        ((List.range (fillCountOf A C)).map (fun j =>
          (snakePicks (fillCountOf A C) (selectedPlayersOf A C H R) 0 j).map Player.id)) := by
      rw [List.forall₂_iff_get]
      have hl1 : (((targetsOf C).take (fillCountOf A C)).map
          (occupiedIds ∘ mergeCourt (amapOf A C H R))).length = fillCountOf A C := by
        rw [List.length_map, List.length_take]
        exact Nat.min_eq_left (fillCount_le_targets A C)
      have hl2 : ((List.range (fillCountOf A C)).map (fun j =>
          (snakePicks (fillCountOf A C) (selectedPlayersOf A C H R) 0 j).map
            Player.id)).length = fillCountOf A C := by
        rw [List.length_map, List.length_range]
      refine ⟨by rw [hl1, hl2], ?_⟩
      intro j h1 h2
      rw [List.get_eq_getElem, List.get_eq_getElem, List.getElem_map, List.getElem_map]
      have hjk : j < fillCountOf A C := by
        rw [hl1] at h1
        exact h1
      have hjt : j < (targetsOf C).length := lt_of_lt_of_le hjk (fillCount_le_targets A C)
      rw [List.getElem_take, List.getElem_range]
      simp only [Function.comp]
      rw [mergeCourt_fill hn hjk hjt]
      have hocc : occupiedIds
          { (targetsOf C)[j] with
            status := CourtStatus.allocating
            playerIds := balancedIds
              (snakePicks (fillCountOf A C) (selectedPlayersOf A C H R) 0 j) } =
          (balancedIds
            (snakePicks (fillCountOf A C) (selectedPlayersOf A C H R) 0 j)).filterMap
              (fun s => s) := rfl
      rw [hocc]
      exact balancedIds_occupied_perm (picks_length_four hjk)
    refine (join_perm_of_forall₂ hforall).trans ?_
    have hmm : (List.range (fillCountOf A C)).map (fun j =>
        (snakePicks (fillCountOf A C) (selectedPlayersOf A C H R) 0 j).map Player.id) =
        ((List.range (fillCountOf A C)).map (fun j =>
          snakePicks (fillCountOf A C) (selectedPlayersOf A C H R) 0 j)).map
            (List.map Player.id) := by
      rw [List.map_map]
      rfl
    rw [hmm, ← List.map_flatten]
    exact (snakePicks_partition hk (selectedPlayersOf A C H R) 0).map Player.id
  · have hzero : fillCountOf A C = 0 := by omega
    have hsel : (selectedPlayersOf A C H R).length = 0 := by
      rw [selectedPlayersOf_length, hzero]
    rw [List.eq_nil_of_length_eq_zero hsel, hzero]
    simp

lemma placed_of_selected {A : List Player} {C : List Court} {H : List RoundRecord}
    {R : Nat → Int} (hn : (C.map Court.id).Nodup) {p : Player}
    (hp : p ∈ selectedPlayersOf A C H R) :
    ∃ c ∈ smartAllocation A C H R,
      c.status = CourtStatus.allocating ∧ some p.id ∈ c.playerIds := by
  obtain ⟨t, ht, hte⟩ := List.getElem_of_mem hp
  have hlen : (selectedPlayersOf A C H R).length = fillCountOf A C * 4 :=
    selectedPlayersOf_length A C H R
  have hk : 1 ≤ fillCountOf A C := by omega
  have hb : boustroIndex (fillCountOf A C) t < fillCountOf A C := boustroIndex_lt hk t
  have hbt : boustroIndex (fillCountOf A C) t < (targetsOf C).length :=
    lt_of_lt_of_le hb (fillCount_le_targets A C)
  refine ⟨mergeCourt (amapOf A C H R)
    ((targetsOf C)[boustroIndex (fillCountOf A C) t]), ?_, ?_, ?_⟩
  · exact List.mem_map_of_mem _ (targets_mem (List.getElem_mem hbt))
  · rw [mergeCourt_status]
    exact targets_status (List.getElem_mem hbt)
  · rw [mergeCourt_fill hn hb hbt]
    dsimp only
    have hmemp := snakePicks_getElem_mem (fillCountOf A C) (selectedPlayersOf A C H R) 0 t ht
    rw [Nat.zero_add, hte] at hmemp
    exact mem_balancedIds_of_mem (picks_length_four hb) hmemp

lemma mem_selectedPlayers_of_mem_selected {A : List Player} {C : List Court}
    {H : List RoundRecord} {R : Nat → Int} {s : PStat} (hs : s ∈ selectedOf A C H R) :
    s.player ∈ selectedPlayersOf A C H R := by
  unfold selectedPlayersOf
  exact (List.perm_insertionSort levelGe _).symm.mem_iff.mp
    (List.mem_map_of_mem PStat.player hs)

/-- C4.  Priority law: the occupied slots of the output allocating courts
are exactly the ids of the top fillable-courts-times-four entries of the
priority queue, and a strictly less-played eligible player is always placed
whenever a more-played eligible player is placed. -/
theorem priority_law (A : List Player) (C : List Court) (H : List RoundRecord)
    (R : Nat → Int) (hnp : (A.map Player.id).Nodup) (hnc : (C.map Court.id).Nodup) :
    ((allSlotIds ((smartAllocation A C H R).filter
        (fun c => decide (c.status = CourtStatus.allocating)))).Perm
      ((selectedOf A C H R).map (fun s => s.player.id))) ∧
    (∀ pa pb : Player, pa ∈ availableOf A C → pb ∈ availableOf A C →
      (statLoop pa.name H).1 < (statLoop pb.name H).1 →
      (∃ c ∈ smartAllocation A C H R,
        c.status = CourtStatus.allocating ∧ some pb.id ∈ c.playerIds) →
      ∃ c ∈ smartAllocation A C H R,
        c.status = CourtStatus.allocating ∧ some pa.id ∈ c.playerIds) := by
  constructor
  · refine (allocSlots_perm hnc).trans ?_
    have h1 : ((selectedPlayersOf A C H R).map Player.id).Perm
        (((selectedOf A C H R).map PStat.player).map Player.id) :=
      (List.perm_insertionSort levelGe _).map Player.id
    refine h1.trans ?_
    rw [List.map_map]
    exact List.Perm.refl _
  · rintro pa pb hpa hpb hlt ⟨c, hc, hst, hmem⟩
    obtain ⟨p, hp, hpe⟩ := slot_mem_selected hc hst hmem
    have hpav := available_spec (selectedPlayers_sub_available hp)
    have hpbA : pb ∈ A := (available_spec hpb).1
    have hppb : p = pb := players_id_inj hnp hpav.1 hpbA hpe
    rw [hppb] at hp
    obtain ⟨sb, hsb, hsbe⟩ := selectedPlayers_mem_selected hp
    obtain ⟨sa, hsa, hsae⟩ := by
      have : pa ∈ (statsOf A C H R).map PStat.player := by
        rw [statsOf_map_player]
        exact hpa
      exact List.mem_map.mp this
    have hsaq : sa ∈ queueOf A C H R :=
      (List.perm_insertionSort prioLe _).symm.mem_iff.mp hsa
    obtain ⟨ra, hra⟩ := stats_mem_eq hsa
    obtain ⟨rb, hrb⟩ := stats_mem_eq (selectedOf_sub_stats hsb)
    have hcb : sb.playedCount = (statLoop pb.name H).1 := by
      rw [hrb, hsbe]
      rfl
    have hca : sa.playedCount = (statLoop pa.name H).1 := by
      rw [hra, hsae]
      rfl
    have hnot : ¬ prioLe sb sa := by
      unfold prioLe
      rw [hca, hcb]
      omega
    have hsasel : sa ∈ selectedOf A C H R := by
      by_contra hnotin
      have hsplit := List.take_append_drop (fillCountOf A C * 4) (queueOf A C H R)
      have hmem2 : sa ∈ (queueOf A C H R).take (fillCountOf A C * 4) ∨
          sa ∈ (queueOf A C H R).drop (fillCountOf A C * 4) := by
        rw [← List.mem_append, hsplit]
        exact hsaq
      rcases hmem2 with h | h
      · exact hnotin h
      · have hsorted : List.Pairwise prioLe (queueOf A C H R) :=
          List.sorted_insertionSort prioLe _
        rw [← hsplit, List.pairwise_append] at hsorted
        exact hnot (hsorted.2.2 sb hsb sa h)
    have hpasel : pa ∈ selectedPlayersOf A C H R := by
      rw [← hsae]
      exact mem_selectedPlayers_of_mem_selected hsasel
    exact placed_of_selected hnc hpasel

/-- Closed witness for C4: four eligible players fill the one open court,
one of them having already played a round, so the never-played player must
be placed alongside. -/
theorem priority_law_witness :
    ∃ c ∈ smartAllocation
        [mkPlayer "a" "a" true 5, mkPlayer "b" "b" true 4, mkPlayer "c" "c" true 3,
         mkPlayer "d" "d" true 2]
        [mkOpenCourt "c1"]
        [{ id := "r1", roundNumber := 1, timestamp := 0,
           matchList := [{ courtName := "c1", playerNames := ["b", "x", "y", "z"],
                           timestamp := 0, result := none }] }]
        (fun _ => 0),
      c.status = CourtStatus.allocating ∧ some "a" ∈ c.playerIds := by
  apply (priority_law
    [mkPlayer "a" "a" true 5, mkPlayer "b" "b" true 4, mkPlayer "c" "c" true 3,
     mkPlayer "d" "d" true 2]
    [mkOpenCourt "c1"]
    [{ id := "r1", roundNumber := 1, timestamp := 0,
       matchList := [{ courtName := "c1", playerNames := ["b", "x", "y", "z"],
                       timestamp := 0, result := none }] }]
    (fun _ => 0) (by decide) (by decide)).2 (mkPlayer "a" "a" true 5) (mkPlayer "b" "b" true 4)
  · decide
  · decide
  · decide
  · decide

/-! ### No-duplication machinery -/

lemma mem_allSlotIds {l : List Court} {x : String} (hx : x ∈ allSlotIds l) :
    ∃ c ∈ l, some x ∈ c.playerIds := by
  induction l with
  | nil => exact absurd hx (List.not_mem_nil x)
  | cons c cs ih =>
    rw [allSlotIds] at hx
    rcases List.mem_append.mp hx with h | h
    · obtain ⟨s, hs, hse⟩ := List.mem_filterMap.mp h
      refine ⟨c, List.mem_cons_self c cs, ?_⟩
      have : s = some x := hse
      rw [← this]
      exact hs
    · obtain ⟨c2, hc2, hm2⟩ := ih h
      exact ⟨c2, List.mem_cons_of_mem c hc2, hm2⟩

lemma allSlotIds_perm {l1 l2 : List Court} (h : l1.Perm l2) :
    (allSlotIds l1).Perm (allSlotIds l2) := by
  rw [allSlotIds_eq_join, allSlotIds_eq_join]
  exact (h.map occupiedIds).flatten

lemma out_filter_playing (A : List Player) (C : List Court) (H : List RoundRecord)
    (R : Nat → Int) :
    (smartAllocation A C H R).filter (fun c => decide (c.status = CourtStatus.playing)) =
      C.filter (fun c => decide (c.status = CourtStatus.playing)) := by
  rw [show smartAllocation A C H R = C.map (mergeCourt (amapOf A C H R)) from rfl,
    List.filter_map]
  have h : ((fun c => decide (c.status = CourtStatus.playing)) ∘
      mergeCourt (amapOf A C H R)) = fun c => decide (c.status = CourtStatus.playing) := by
    funext c
    simp [Function.comp, mergeCourt_status]
  rw [h]
  have h2 : List.map (mergeCourt (amapOf A C H R))
      (C.filter (fun c => decide (c.status = CourtStatus.playing))) =
      List.map id (C.filter (fun c => decide (c.status = CourtStatus.playing))) := by
    apply List.map_congr_left
    intro c hc
    have := List.mem_filter.mp hc
    simpa using mergeCourt_playing (by simpa using this.2)
  rw [h2, List.map_id]

lemma selectedIds_nodup {A : List Player} {C : List Court} {H : List RoundRecord}
    {R : Nat → Int} (hnp : (A.map Player.id).Nodup) :
    ((selectedPlayersOf A C H R).map Player.id).Nodup := by
  have h1 : ((availableOf A C).map Player.id).Nodup :=
    hnp.sublist ((List.filter_sublist A).map Player.id)
  have h2 : ((statsOf A C H R).map (fun s => s.player.id)).Nodup := by
    have he : (statsOf A C H R).map (fun s => s.player.id) =
        ((statsOf A C H R).map PStat.player).map Player.id := by
      rw [List.map_map]
      rfl
    rw [he, statsOf_map_player]
    exact h1
  have h3 : ((queueOf A C H R).map (fun s => s.player.id)).Nodup := by
    have hp := (List.perm_insertionSort prioLe (statsOf A C H R)).map (fun s => s.player.id)
    exact hp.nodup_iff.mpr h2
  have h4 : ((selectedOf A C H R).map (fun s => s.player.id)).Nodup :=
    h3.sublist ((List.take_sublist _ _).map _)
  have h5 : ((selectedPlayersOf A C H R).map Player.id).Perm
      ((selectedOf A C H R).map (fun s => s.player.id)) := by
    have := (List.perm_insertionSort levelGe
      ((selectedOf A C H R).map PStat.player)).map Player.id
    rw [List.map_map] at this
    exact this
  exact h5.nodup_iff.mpr h4

/-- Counterexample to C7 as stated.  The roster ids are distinct and no id
occupies two slots among the playing courts, yet the empty-string id seated
on a playing court escapes the lock set and is seated again on the open
court, so one id occupies two slots of the output. -/
theorem no_duplication_counterexample :
    ((emptyIdRoster.map Player.id).Nodup) ∧
    ((emptyIdCourts.map Court.id).Nodup) ∧
    ((allSlotIds (emptyIdCourts.filter
        (fun c => decide (c.status = CourtStatus.playing)))).Nodup) ∧
    ¬ (allSlotIds (smartAllocation emptyIdRoster emptyIdCourts [] (fun _ => 0))).Nodup := by
  decide

/-- C7 as amended.  When roster ids are distinct, court ids are distinct,
no id occupies two slots among the input playing courts, and no playing
court seats the empty-string id, no player id appears in more than one slot
across the whole output. -/
theorem no_duplication (A : List Player) (C : List Court) (H : List RoundRecord)
    (R : Nat → Int) (hnp : (A.map Player.id).Nodup) (hnc : (C.map Court.id).Nodup)
    (hq : (allSlotIds (C.filter (fun c => decide (c.status = CourtStatus.playing)))).Nodup)
    (hne : "" ∉ allSlotIds (C.filter (fun c => decide (c.status = CourtStatus.playing)))) :
    (allSlotIds (smartAllocation A C H R)).Nodup := by
  have hsplit := List.filter_append_perm
    (fun c => decide (c.status = CourtStatus.allocating)) (smartAllocation A C H R)
  have hcongr : (smartAllocation A C H R).filter
      (fun c => !decide (c.status = CourtStatus.allocating)) =
      (smartAllocation A C H R).filter (fun c => decide (c.status = CourtStatus.playing)) := by
    apply List.filter_congr
    intro c _
    cases h : c.status <;> simp
  rw [hcongr] at hsplit
  have hperm1 : (allSlotIds (smartAllocation A C H R)).Perm
      (allSlotIds ((smartAllocation A C H R).filter
          (fun c => decide (c.status = CourtStatus.allocating)) ++
        (smartAllocation A C H R).filter
          (fun c => decide (c.status = CourtStatus.playing)))) :=
    (allSlotIds_perm hsplit).symm
  rw [allSlotIds_append, out_filter_playing] at hperm1
  apply hperm1.nodup_iff.mpr
  rw [List.nodup_append]
  refine ⟨?_, hq, ?_⟩
  · exact (allocSlots_perm hnc).nodup_iff.mpr (selectedIds_nodup hnp)
  · rw [List.disjoint_left]
    intro x hx hx2
    obtain ⟨p, hp, hpe⟩ := by
      have := (allocSlots_perm (A := A) (H := H) (R := R) hnc).mem_iff.mp hx
      exact List.mem_map.mp this
    have hxne : x ≠ "" := fun h => hne (h ▸ hx2)
    obtain ⟨c0, hc0, hm0⟩ := mem_allSlotIds hx2
    have hc0m := List.mem_filter.mp hc0
    have hlock : x ∈ playingIdsOf C :=
      playingIdsOf_of_seated hxne hc0m.1 (by simpa using hc0m.2) hm0
    have hav := available_spec (selectedPlayers_sub_available hp)
    rw [hpe] at hav
    exact hav.2.2 hlock

/-- Closed witness for the amended C7 at a concrete input. -/
theorem no_duplication_witness :
    (allSlotIds (smartAllocation
        [mkPlayer "a" "a" true 5, mkPlayer "b" "b" true 4, mkPlayer "c" "c" true 3,
         mkPlayer "d" "d" true 2, mkPlayer "x" "x" true 9]
        [mkPlayingCourt "p1" [some "x", none, none, none], mkOpenCourt "c2"]
        [] (fun _ => 0))).Nodup := by
  apply no_duplication
    [mkPlayer "a" "a" true 5, mkPlayer "b" "b" true 4, mkPlayer "c" "c" true 3,
     mkPlayer "d" "d" true 2, mkPlayer "x" "x" true 9]
    [mkPlayingCourt "p1" [some "x", none, none, none], mkOpenCourt "c2"]
    [] (fun _ => 0)
  · decide
  · decide
  · decide
  · decide

/-! ### Statistics characterisation -/

lemma roundScan_fst (nm : String) (i : Nat) (acc : Nat × Int) (r : RoundRecord) :
    (roundScan nm i acc r).1 =
      acc.1 + (r.matchList.filter (fun m => decide (nm ∈ m.playerNames))).length := by
  unfold roundScan
  have key : ∀ (ms : List MatchRecord) (a : Nat × Int),
      (ms.foldl (fun a m => if nm ∈ m.playerNames then (a.1 + 1, (i : Int)) else a) a).1 =
        a.1 + (ms.filter (fun m => decide (nm ∈ m.playerNames))).length := by
    intro ms
    induction ms with
    | nil => intro a; simp
    | cons m ms ih =>
      intro a
      rw [List.foldl_cons, List.filter_cons]
      by_cases h : nm ∈ m.playerNames
      · rw [if_pos h, ih]
        simp [h]
        omega
      · rw [if_neg h, ih]
        simp [h]
  exact key r.matchList acc

lemma roundScan_snd (nm : String) (i : Nat) (acc : Nat × Int) (r : RoundRecord) :
    (roundScan nm i acc r).2 = if roundHas nm r then (i : Int) else acc.2 := by
  unfold roundScan roundHas
  have key : ∀ (ms : List MatchRecord) (a : Nat × Int),
      (ms.foldl (fun a m => if nm ∈ m.playerNames then (a.1 + 1, (i : Int)) else a) a).2 =
        if ∃ m ∈ ms, nm ∈ m.playerNames then (i : Int) else a.2 := by
    intro ms
    induction ms with
    | nil => intro a; simp
    | cons m ms ih =>
      intro a
      rw [List.foldl_cons]
      by_cases h : nm ∈ m.playerNames
      · rw [if_pos h, ih]
        have hc : ∃ m2 ∈ m :: ms, nm ∈ m2.playerNames := ⟨m, List.mem_cons_self m ms, h⟩
        rw [if_pos hc]
        split <;> rfl
      · rw [if_neg h, ih]
        by_cases h2 : ∃ m2 ∈ ms, nm ∈ m2.playerNames
        · rw [if_pos h2, if_pos (by
            obtain ⟨m2, hm2, hn2⟩ := h2
            exact ⟨m2, List.mem_cons_of_mem m hm2, hn2⟩)]
        · rw [if_neg h2, if_neg (by
            rintro ⟨m2, hm2, hn2⟩
            rcases List.mem_cons.mp hm2 with he | hm
            · exact h (he ▸ hn2)
            · exact h2 ⟨m2, hm, hn2⟩)]
  exact key r.matchList acc

lemma statLoop_append_singleton (nm : String) (hs : List RoundRecord) (r : RoundRecord) :
    statLoop nm (hs ++ [r]) = roundScan nm hs.length (statLoop nm hs) r := by
  unfold statLoop
  rw [List.enum_append, List.foldl_append]
  rw [List.enumFrom_cons]
  rfl

lemma statLoop_fst (nm : String) (Hh : List RoundRecord) :
    (statLoop nm Hh).1 =
      (Hh.map (fun rd =>
        (rd.matchList.filter (fun m => decide (nm ∈ m.playerNames))).length)).sum := by
  induction Hh using List.reverseRecOn with
  | nil => rfl
  | append_singleton hs r ih =>
    rw [statLoop_append_singleton, roundScan_fst, ih, List.map_append, List.sum_append]
    simp

lemma statLoop_snd (nm : String) (Hh : List RoundRecord) :
    ((statLoop nm Hh).2 = -1 ∧ ∀ r ∈ Hh, ¬ roundHas nm r) ∨
    (∃ j, ∃ _ : j < Hh.length, (statLoop nm Hh).2 = (j : Int) ∧ roundHas nm (Hh[j]) ∧
      ∀ j2 (hj2 : j2 < Hh.length), j < j2 → ¬ roundHas nm (Hh[j2])) := by
  induction Hh using List.reverseRecOn with
  | nil =>
    left
    exact ⟨rfl, fun r hr => absurd hr (List.not_mem_nil r)⟩
  | append_singleton hs r ih =>
    rw [statLoop_append_singleton, roundScan_snd]
    by_cases hR : roundHas nm r
    · right
      refine ⟨hs.length, by simp, ?_, ?_, ?_⟩
      · rw [if_pos hR]
      · rw [List.getElem_concat_length hs r hs.length rfl]
        exact hR
      · intro j2 hj2 hgt
        simp at hj2
        omega
    · rw [if_neg hR]
      rcases ih with ⟨h1, hall⟩ | ⟨j, hj, he, hhas, hlater⟩
      · left
        refine ⟨h1, ?_⟩
        intro r2 hr2
        rcases List.mem_append.mp hr2 with hm | hm
        · exact hall r2 hm
        · have : r2 = r := by simpa using hm
          exact this ▸ hR
      · right
        have hj' : j < (hs ++ [r]).length := by
          simp
          omega
        refine ⟨j, hj', he, ?_, ?_⟩
        · rw [List.getElem_append_left hj]
          exact hhas
        · intro j2 hj2 hgt
          by_cases hlt : j2 < hs.length
          · rw [List.getElem_append_left hlt]
            exact hlater j2 hlt hgt
          · have hj2e : j2 = hs.length := by
              simp at hj2
              omega
            rw [List.getElem_concat_length hs r j2 hj2e]
            exact hR

/-- C5.  Derived statistics: the played count is the total number of
matches whose name list contains the player name; the rest score is the
999 sentinel for a never-played player and otherwise the round count minus
the index of the most recent round containing the name; and a never-played
player has strict queue priority over any player with a real finite rest
score. -/
theorem stats_spec (Hh : List RoundRecord) (p : Player) (r : Int) :
    ((pstatOf Hh p r).playedCount =
      (Hh.map (fun rd =>
        (rd.matchList.filter (fun m => decide (p.name ∈ m.playerNames))).length)).sum) ∧
    ((∀ rd ∈ Hh, ¬ roundHas p.name rd) → (pstatOf Hh p r).restRounds = 999) ∧
    (∀ j (hj : j < Hh.length), roundHas p.name (Hh[j]) →
      (∀ j2 (hj2 : j2 < Hh.length), j < j2 → ¬ roundHas p.name (Hh[j2])) →
      (pstatOf Hh p r).restRounds = (Hh.length : Int) - (j : Int)) ∧
    (∀ (q : Player) (rq : Int), (∀ rd ∈ Hh, ¬ roundHas p.name rd) →
      (∃ rd ∈ Hh, roundHas q.name rd) →
      (prioLe (pstatOf Hh p r) (pstatOf Hh q rq) ∧
        ¬ prioLe (pstatOf Hh q rq) (pstatOf Hh p r))) := by
  have hfst : ∀ (nm : String), (statLoop nm Hh).1 =
      (Hh.map (fun rd =>
        (rd.matchList.filter (fun m => decide (nm ∈ m.playerNames))).length)).sum :=
    fun nm => statLoop_fst nm Hh
  have hzero : ∀ (nm : String), (∀ rd ∈ Hh, ¬ roundHas nm rd) → (statLoop nm Hh).1 = 0 := by
    intro nm hnever
    rw [hfst nm]
    apply List.sum_eq_zero
    intro x hx
    obtain ⟨rd, hrd, hre⟩ := List.mem_map.mp hx
    rw [← hre]
    have : rd.matchList.filter (fun m => decide (nm ∈ m.playerNames)) = [] := by
      rw [List.filter_eq_nil]
      intro m hm
      simp only [decide_eq_true_eq]
      intro hmem
      exact hnever rd hrd ⟨m, hm, hmem⟩
    rw [this]
    rfl
  have hpos : ∀ (nm : String), (∃ rd ∈ Hh, roundHas nm rd) → 1 ≤ (statLoop nm Hh).1 := by
    rintro nm ⟨rd, hrd, m, hm, hmem⟩
    rw [hfst nm]
    have hle : (rd.matchList.filter (fun m => decide (nm ∈ m.playerNames))).length ≤
        (Hh.map (fun rd =>
          (rd.matchList.filter (fun m => decide (nm ∈ m.playerNames))).length)).sum := by
      apply List.single_le_sum (fun x _ => Nat.zero_le x)
      exact List.mem_map_of_mem _ hrd
    have hne : rd.matchList.filter (fun m => decide (nm ∈ m.playerNames)) ≠ [] := by
      intro hnil
      have := List.filter_eq_nil.mp hnil m hm
      simp at this
      exact this hmem
    have := List.length_pos.mpr hne
    omega
  have hnever_snd : ∀ (nm : String), (∀ rd ∈ Hh, ¬ roundHas nm rd) →
      (statLoop nm Hh).2 = -1 := by
    intro nm hnever
    rcases statLoop_snd nm Hh with ⟨h1, _⟩ | ⟨j, hj, _, hhas, _⟩
    · exact h1
    · exact absurd hhas (hnever _ (List.getElem_mem hj))
  refine ⟨hfst p.name, ?_, ?_, ?_⟩
  · intro hnever
    show (if (statLoop p.name Hh).2 = -1 then (999 : Int) else _) = 999
    rw [if_pos (hnever_snd p.name hnever)]
  · intro j hj hhas hlater
    rcases statLoop_snd p.name Hh with ⟨_, hall⟩ | ⟨j0, hj0, he, hhas0, hlater0⟩
    · exact absurd hhas (hall _ (List.getElem_mem hj))
    · have hje : j = j0 := by
        by_contra hne
        rcases Nat.lt_or_ge j j0 with hlt | hge
        · exact hlater j0 hj0 hlt hhas0
        · exact hlater0 j hj (by omega) hhas
      subst hje
      show (if (statLoop p.name Hh).2 = -1 then (999 : Int)
        else (Hh.length : Int) - (statLoop p.name Hh).2) = (Hh.length : Int) - (j : Int)
      rw [he, if_neg (by omega)]
  · intro q rq hnever hplayed
    have h1 : (pstatOf Hh p r).playedCount = 0 := hzero p.name hnever
    have h2 : 1 ≤ (pstatOf Hh q rq).playedCount := hpos q.name hplayed
    constructor
    · unfold prioLe
      omega
    · unfold prioLe
      omega

/-- History fixture: the name x plays in the first round only. -/
def exHist : List RoundRecord :=
  [{ id := "r1", roundNumber := 1, timestamp := 0,
     matchList := [{ courtName := "A", playerNames := ["x", "y"], timestamp := 0,
                     result := none }] },
   { id := "r2", roundNumber := 2, timestamp := 10,
     matchList := [{ courtName := "A", playerNames := ["y", "z"], timestamp := 10,
                     result := none }] }]

/-- Closed witness for C5: a never-played player gets the sentinel and
strict priority over the player last seen in round zero, whose rest score
is the history length minus that index. -/
theorem stats_spec_witness :
    (pstatOf exHist (mkPlayer "q" "q" true 1) 0).restRounds = 999 ∧
    (pstatOf exHist (mkPlayer "x" "x" true 1) 0).restRounds = (2 : Int) - (0 : Nat) ∧
    prioLe (pstatOf exHist (mkPlayer "q" "q" true 1) 0)
      (pstatOf exHist (mkPlayer "x" "x" true 1) 0) ∧
    ¬ prioLe (pstatOf exHist (mkPlayer "x" "x" true 1) 0)
      (pstatOf exHist (mkPlayer "q" "q" true 1) 0) := by
  refine ⟨(stats_spec exHist (mkPlayer "q" "q" true 1) 0).2.1 (by decide), ?_, ?_⟩
  · exact (stats_spec exHist (mkPlayer "x" "x" true 1) 0).2.2.1 0 (by decide) (by decide)
      (by decide)
  · exact (stats_spec exHist (mkPlayer "q" "q" true 1) 0).2.2.2
      (mkPlayer "x" "x" true 1) 0 (by decide) (by decide)

/-! ### Round grouping -/

/-- The round fixture used against the grouping claim. -/
def dupRound : RoundRecord :=
  { id := "r1", roundNumber := 1, timestamp := 0,
    matchList := [{ courtName := "A", playerNames := ["a", "b", "c", "d"], timestamp := 0,
                    result := none }] }

/-- A repeat of the same court and players three minutes later. -/
def dupMatch : MatchRecord :=
  { courtName := "A", playerNames := ["a", "b", "c", "d"], timestamp := 180000,
    result := none }

/-- Counterexample to C9 as stated.  The new match starts well inside the
fifteen-minute window of the last round, yet it does not join that round:
the duplicate guard sees the same court name and the same joined name list
and leaves the history unchanged. -/
theorem round_grouping_counterexample :
    dupMatch.timestamp - dupRound.timestamp < groupWindowMs ∧
    recordStartRounds [dupRound] dupMatch "n1" = [dupRound] ∧
    recordStartRounds [dupRound] dupMatch "n1" ≠
      [{ dupRound with matchList := dupRound.matchList ++ [dupMatch] }] := by
  refine ⟨by decide, by decide, ?_⟩
  intro h
  have h2 : recordStartRounds [dupRound] dupMatch "n1" = [dupRound] := by decide
  rw [h2] at h
  have := congrArg (fun l => (l.headD dupRound).matchList.length) h
  simp [dupRound] at this

/-- C9 as amended.  When the new timestamp falls inside the grouping window
of the most recent round, the match is appended to that round unless a
match with the same court name and identical comma-joined player list is
already present, in which case the history is unchanged; otherwise, and
when no round exists, a fresh round is appended carrying the next sequence
number and the current timestamp. -/
theorem round_grouping (prev : List RoundRecord) (nm : MatchRecord) (newId : String) :
    (prev.getLast? = none →
      recordStartRounds prev nm newId =
        prev ++ [{ id := newId, roundNumber := prev.length + 1,
                   timestamp := nm.timestamp, matchList := [nm] }]) ∧
    (∀ lastRound, prev.getLast? = some lastRound →
      ((nm.timestamp - lastRound.timestamp < groupWindowMs →
        ((∃ m ∈ lastRound.matchList, m.courtName = nm.courtName ∧
            String.intercalate "," m.playerNames = String.intercalate "," nm.playerNames) →
          recordStartRounds prev nm newId = prev) ∧
        ((∀ m ∈ lastRound.matchList, ¬(m.courtName = nm.courtName ∧
            String.intercalate "," m.playerNames = String.intercalate "," nm.playerNames)) →
          recordStartRounds prev nm newId =
            prev.dropLast ++ [{ lastRound with matchList := lastRound.matchList ++ [nm] }])) ∧
      (groupWindowMs ≤ nm.timestamp - lastRound.timestamp →
        recordStartRounds prev nm newId =
          prev ++ [{ id := newId, roundNumber := prev.length + 1,
                     timestamp := nm.timestamp, matchList := [nm] }]))) := by
  constructor
  · intro hnone
    unfold recordStartRounds
    rw [hnone]
  · intro lastRound hsome
    refine ⟨?_, ?_⟩
    · intro hwin
      constructor
      · intro hdup
        unfold recordStartRounds
        rw [hsome]
        dsimp only
        rw [if_pos hwin, if_pos ?_]
        rw [List.any_eq_true]
        obtain ⟨m, hm, h1, h2⟩ := hdup
        refine ⟨m, hm, ?_⟩
        rw [Bool.and_eq_true, beq_iff_eq, beq_iff_eq]
        exact ⟨h1, h2⟩
      · intro hnodup
        unfold recordStartRounds
        rw [hsome]
        dsimp only
        rw [if_pos hwin, if_neg ?_]
        rw [List.any_eq_true]
        rintro ⟨m, hm, hme⟩
        rw [Bool.and_eq_true, beq_iff_eq, beq_iff_eq] at hme
        exact hnodup m hm hme
    · intro hlate
      unfold recordStartRounds
      rw [hsome]
      dsimp only
      rw [if_neg (by omega)]

/-- Closed witness for the amended C9: a fresh match inside the window
joins the last round, and a match past the window opens round two. -/
theorem round_grouping_witness :
    recordStartRounds [dupRound]
        { courtName := "B", playerNames := ["e", "f"], timestamp := 180000, result := none }
        "n2" =
      [{ dupRound with matchList := dupRound.matchList ++
          [{ courtName := "B", playerNames := ["e", "f"], timestamp := 180000,
             result := none }] }] ∧
    recordStartRounds [dupRound]
        { courtName := "A", playerNames := ["a", "b", "c", "d"], timestamp := 2000000,
          result := none } "n3" =
      [dupRound,
       { id := "n3", roundNumber := 2, timestamp := 2000000,
         matchList := [{ courtName := "A", playerNames := ["a", "b", "c", "d"],
                         timestamp := 2000000, result := none }] }] := by
  constructor
  · have h := (((round_grouping [dupRound]
      { courtName := "B", playerNames := ["e", "f"], timestamp := 180000, result := none }
      "n2").2 dupRound (by decide)).1 (by decide)).2 (by decide)
    rw [h]
    decide
  · have h := ((round_grouping [dupRound]
      { courtName := "A", playerNames := ["a", "b", "c", "d"], timestamp := 2000000,
        result := none } "n3").2 dupRound (by decide)).2 (by decide)
    rw [h]
    decide
